import Mathlib

/-!
# Multi-source reachability aggregation engine: shallow embedding

This file embeds the two C++ engines of the repository
(`src/BFSstandard.cpp`, class `ParkingSystemStandard`, and
`src/BFSoptimized.cpp`, class `ParkingSystemOptimized`) in Lean and
verifies the specified properties of the placement query.

A grid is a `List (List Int)` of cell kinds (`0` = traversable empty land,
`1` = source / existing parking spot, `2` = obstacle), mirroring the C++
`std::vector<std::vector<int>>`.  Distance maps and accumulator matrices
are total functions `Int → Int → Int`; reads outside the grid are guarded
exactly where the C++ guards them.  Machine `int` arithmetic never
overflows on the quantities involved (distances are bounded by the cell
count), so `Int` is used directly; the `INT_MAX` initial best value is the
literal `2147483647`.
-/

/-- Grid of cell kinds, as in the C++ `vector<vector<int>>`. -/
abbrev Grid := List (List Int)

/-- A cell position `(row, col)`, with `int` coordinates as in the C++. -/
abbrev Pos := Int × Int

/-- A distance map / accumulator matrix: `m r c` is the entry at `(r, c)`. -/
abbrev DistMap := Int → Int → Int

/-- `grid.size()`. -/
def gridRows (g : Grid) : Int := (g.length : Int)

/-- `grid[0].size()`. -/
def gridCols (g : Grid) : Int := ((g.headD []).length : Int)

/-- `grid[r][c]`; only read after the C++ bounds checks hold. -/
def gridAt (g : Grid) (r c : Int) : Int := (g.getD r.toNat []).getD c.toNat 0

/-- Functional update of one matrix entry. -/
def setD (d : DistMap) (r c v : Int) : DistMap :=
  fun a b => if a = r ∧ b = c then v else d a b

/-- Matrix with every entry `v` (the `vector(m, vector(n, v))` initializer). -/
def constMap (v : Int) : DistMap := fun _ _ => v

/-- The four 4-connected step offsets `{{0,1},{1,0},{0,-1},{-1,0}}`. -/
def directions : List Pos := [(0, 1), (1, 0), (0, -1), (-1, 0)]

/-- All grid positions in row-major order (the double `for` loops over
`i < m`, `j < n`). -/
def cellsOf (g : Grid) : List Pos :=
  (List.range g.length).flatMap
    (fun i => (List.range (g.headD []).length).map (fun j => (Int.ofNat i, Int.ofNat j)))

/-- Row-major extraction of the cells with value `1` (the parking spots),
shared verbatim by both engines. -/
def extractSources (g : Grid) : List Pos :=
  (cellsOf g).filter (fun p => gridAt g p.1 p.2 = 1)

/-- `INT_MAX`. -/
def intMax : Int := 2147483647

/-- The three selector locals `bestDist`, `bestR`, `bestC`. -/
structure SelOut where
  bestDist : Int
  bestR : Int
  bestC : Int
deriving DecidableEq

/-- The selected cell `(bestR, bestC)` reported by the engines. -/
def SelOut.cell (s : SelOut) : Pos := (s.bestR, s.bestC)

namespace ParkingSystemStandard

/-- State of the BFS loop in `ParkingSystemStandard::bfs`. -/
structure BfsSt where
  distance : DistMap
  queue : List Pos

/-- One direction of the neighbor loop: assign `distance+1` to an
unvisited in-bounds non-obstacle neighbor and enqueue it. -/
def bfsVisit (g : Grid) (m n : Int) (row col : Int) (st : BfsSt) (d : Pos) : BfsSt :=
  if 0 ≤ row + d.1 ∧ row + d.1 < m ∧ 0 ≤ col + d.2 ∧ col + d.2 < n ∧
      st.distance (row + d.1) (col + d.2) = -1 ∧ gridAt g (row + d.1) (col + d.2) ≠ 2 then
    { distance := setD st.distance (row + d.1) (col + d.2) (st.distance row col + 1),
      queue := st.queue ++ [(row + d.1, col + d.2)] }
  else st

/-- Body of one `while` iteration after the dequeue: the `for` over the
four directions. -/
def bfsProcess (g : Grid) (m n : Int) (row col : Int) (st : BfsSt) : BfsSt :=
  directions.foldl (bfsVisit g m n row col) st

/-- The `while(!q.empty())` loop, with explicit fuel; `m*n` iterations
always suffice (each dequeued cell was enqueued exactly once, when its
distance entry was first assigned). -/
def bfsLoop (g : Grid) (m n : Int) : Nat → BfsSt → DistMap
  | 0, st => st.distance
  | Nat.succ fuel, st =>
    match st.queue with
    | [] => st.distance
    | p :: rest =>
      bfsLoop g m n fuel (bfsProcess g m n p.1 p.2 { distance := st.distance, queue := rest })

/-- `ParkingSystemStandard::bfs`: distance map of a single-source BFS. -/
def bfs (g : Grid) (startRow startCol : Int) : DistMap :=
  bfsLoop g (gridRows g) (gridCols g) (g.length * (g.headD []).length)
    { distance := setD (constMap (-1)) startRow startCol 0,
      queue := [(startRow, startCol)] }

/-- The inner aggregation `for(k)` loop of `findOptimalSpot`, with its
early `break` on the first unreached map.  Note the accumulator is
`totalDist = allDistances[k][i][j]` — an overwriting assignment, exactly
as in the source (line 113 of `src/BFSstandard.cpp`). -/
def aggLoop (i j : Int) : List DistMap → Int × Int → Int × Int
  | [], acc => acc
  | d :: rest, acc =>
    if d i j = -1 then acc
    else aggLoop i j rest (d i j, acc.2 + 1)

/-- One candidate step of the selection loop: skip obstacles, require
reachability from all spots, keep the strictly better aggregate. -/
def selectStep (g : Grid) (allDistances : List DistMap) (numSpots : Int)
    (best : SelOut) (p : Pos) : SelOut :=
  if gridAt g p.1 p.2 = 2 then best
  else
    let a := aggLoop p.1 p.2 allDistances (0, 0)
    if a.2 = numSpots ∧ a.1 < best.bestDist then
      { bestDist := a.1, bestR := p.1, bestC := p.2 }
    else best

/-- The distance maps retained for a given spot list. -/
def allMapsOf (g : Grid) (parkingSpots : List Pos) : List DistMap :=
  parkingSpots.map (fun p => bfs g p.1 p.2)

/-- `findOptimalSpot` with the spot list made explicit (the body after the
extraction loop): run all BFS traversals, then scan candidates in
row-major order. -/
def run (g : Grid) (parkingSpots : List Pos) : SelOut :=
  (cellsOf g).foldl
    (selectStep g (allMapsOf g parkingSpots) (parkingSpots.length : Int))
    { bestDist := intMax, bestR := -1, bestC := -1 }

/-- The retained per-source distance maps of a query. -/
def allDistanceMaps (g : Grid) : List DistMap := allMapsOf g (extractSources g)

/-- `ParkingSystemStandard::findOptimalSpot`, full selector state
(`bestDist`, `bestR`, `bestC`; the printed result is `(bestR, bestC)`
with value `bestDist`). -/
def findOptimalSpotFull (g : Grid) : SelOut := run g (extractSources g)

/-- The `int` return value of `ParkingSystemStandard::findOptimalSpot`:
`-1` when no valid location was found, otherwise `bestDist`. -/
def findOptimalSpot (g : Grid) : Int :=
  let out := findOptimalSpotFull g
  if out.bestR = -1 then -1 else out.bestDist

end ParkingSystemStandard

namespace ParkingSystemOptimized

/-- State of the BFS loop in `ParkingSystemOptimized::bfs`: the local
`distance` map, the two accumulator matrices and the queue. -/
structure BfsSt where
  distance : DistMap
  totalDist : DistMap
  reachCount : DistMap
  queue : List Pos

/-- One direction of the neighbor loop: same neighbor rule as the
standard engine, plus the immediate aggregation
`totalDist[new] += distance[new]; reachCount[new]++`. -/
def bfsVisit (g : Grid) (m n : Int) (row col : Int) (st : BfsSt) (d : Pos) : BfsSt :=
  if 0 ≤ row + d.1 ∧ row + d.1 < m ∧ 0 ≤ col + d.2 ∧ col + d.2 < n ∧
      st.distance (row + d.1) (col + d.2) = -1 ∧ gridAt g (row + d.1) (col + d.2) ≠ 2 then
    { distance := setD st.distance (row + d.1) (col + d.2) (st.distance row col + 1),
      totalDist := setD st.totalDist (row + d.1) (col + d.2)
        (st.totalDist (row + d.1) (col + d.2) + (st.distance row col + 1)),
      reachCount := setD st.reachCount (row + d.1) (col + d.2)
        (st.reachCount (row + d.1) (col + d.2) + 1),
      queue := st.queue ++ [(row + d.1, col + d.2)] }
  else st

/-- Body of one `while` iteration after the dequeue: the `for` over the
four directions. -/
def bfsProcess (g : Grid) (m n : Int) (row col : Int) (st : BfsSt) : BfsSt :=
  directions.foldl (bfsVisit g m n row col) st

/-- The `while(!q.empty())` loop of the optimized BFS, with fuel. -/
def bfsLoop (g : Grid) (m n : Int) : Nat → BfsSt → BfsSt
  | 0, st => st
  | Nat.succ fuel, st =>
    match st.queue with
    | [] => st
    | p :: rest => bfsLoop g m n fuel (bfsProcess g m n p.1 p.2 { st with queue := rest })

/-- Final state of `ParkingSystemOptimized::bfs` (its local `distance` map
included, for comparison with the standard engine). -/
def bfsFinal (g : Grid) (startRow startCol : Int) (totalDist reachCount : DistMap) : BfsSt :=
  bfsLoop g (gridRows g) (gridCols g) (g.length * (g.headD []).length)
    { distance := setD (constMap (-1)) startRow startCol 0,
      totalDist := totalDist, reachCount := reachCount,
      queue := [(startRow, startCol)] }

/-- `ParkingSystemOptimized::bfs`: observable effect on the accumulators. -/
def bfs (g : Grid) (startRow startCol : Int) (totalDist reachCount : DistMap) :
    DistMap × DistMap :=
  let final := bfsFinal g startRow startCol totalDist reachCount
  (final.totalDist, final.reachCount)

/-- The per-spot accumulation loop of `findOptimalSpot`: fold every BFS
into `(totalDist, reachCount)`, both zero-initialized. -/
def accumulate (g : Grid) (parkingSpots : List Pos) : DistMap × DistMap :=
  parkingSpots.foldl (fun acc p => bfs g p.1 p.2 acc.1 acc.2) (constMap 0, constMap 0)

/-- One candidate step of the optimized selection loop. -/
def selectStep (g : Grid) (totalDist reachCount : DistMap) (numSpots : Int)
    (best : SelOut) (p : Pos) : SelOut :=
  if gridAt g p.1 p.2 = 2 then best
  else if reachCount p.1 p.2 = numSpots ∧ totalDist p.1 p.2 < best.bestDist then
    { bestDist := totalDist p.1 p.2, bestR := p.1, bestC := p.2 }
  else best

/-- `findOptimalSpot` with the spot list made explicit. -/
def run (g : Grid) (parkingSpots : List Pos) : SelOut :=
  let acc := accumulate g parkingSpots
  (cellsOf g).foldl (selectStep g acc.1 acc.2 (parkingSpots.length : Int))
    { bestDist := intMax, bestR := -1, bestC := -1 }

/-- `ParkingSystemOptimized::findOptimalSpot`, full selector state. -/
def findOptimalSpotFull (g : Grid) : SelOut := run g (extractSources g)

/-- The `int` return value of `ParkingSystemOptimized::findOptimalSpot`. -/
def findOptimalSpot (g : Grid) : Int :=
  let out := findOptimalSpotFull g
  if out.bestR = -1 then -1 else out.bestDist

end ParkingSystemOptimized

/-- The demonstration grid built in both `main` functions. -/
def demoGrid : Grid :=
  [[1, 0, 2, 0, 1],
   [0, 0, 0, 0, 0],
   [0, 0, 1, 0, 0]]

/-- A grid with a single source cell. -/
def singleSourceGrid : Grid := [[1]]

/-- A one-row grid with two sources and no obstacle. -/
def rowGrid : Grid := [[1, 0, 1]]

/-- Two sources separated by a wall of obstacles spanning every row. -/
def wallGrid : Grid := [[1, 2, 1]]

/-- Modelled from the spec: the four aggregation strategies of §4.3.  No
strategy selector exists under `src/`; the materialized engine implements
one aggregation loop and the streaming engine implements Sum only. -/
inductive Strategy
  | Sum
  | Minimax
  | MaxMin
  | Weighted
deriving DecidableEq

/-- Modelled from the spec: the two selectable memory strategies of §4.5
(in `src/` they are the two classes, not a runtime selector). -/
inductive MemoryMode
  | Materialized
  | Streaming
deriving DecidableEq

/-- Modelled from the spec: the error taxonomy of §7, absent from `src/`. -/
inductive EngineError
  | InvalidGrid
  | InvalidSource
  | UnsupportedStrategyForMode
deriving DecidableEq

/-- Modelled from the spec: which aggregation strategies each memory mode
supports (§4.5: materialized supports all four, streaming supports Sum
only). -/
def MemoryMode.supports : MemoryMode → Strategy → Bool
  | MemoryMode.Materialized, _ => true
  | MemoryMode.Streaming, Strategy.Sum => true
  | MemoryMode.Streaming, _ => false

/-- Modelled from the spec: the configuration-time check of §4.5/§7 —
an unsupported strategy/mode pair fails with `UnsupportedStrategyForMode`
before any traversal runs. -/
def configureEngine (mode : MemoryMode) (strat : Strategy) : Except EngineError Unit :=
  if mode.supports strat then Except.ok () else
    Except.error EngineError.UnsupportedStrategyForMode

/-- Modelled from the spec: one engine query.  Configuration is checked
first; only on success is the corresponding `src/` engine invoked (the Sum
selection path, the only one implemented there).  The second component
counts how many BFS traversals were run: one per extracted source on
success, zero when configuration fails. -/
def runQuery (mode : MemoryMode) (strat : Strategy) (g : Grid) :
    Except EngineError SelOut × Nat :=
  match configureEngine mode strat with
  | Except.error e => (Except.error e, 0)
  | Except.ok _ =>
    match mode with
    | MemoryMode.Materialized =>
      (Except.ok (ParkingSystemStandard.findOptimalSpotFull g), (extractSources g).length)
    | MemoryMode.Streaming =>
      (Except.ok (ParkingSystemOptimized.findOptimalSpotFull g), (extractSources g).length)

/-- A valid grid: at least one row, and every row has the length of the
first one. -/
abbrev Rect (g : Grid) : Prop :=
  0 < g.length ∧ ∀ row ∈ g, row.length = (g.headD []).length

/-- `p` lies inside the `m × n` grid. -/
abbrev inBounds (g : Grid) (p : Pos) : Prop :=
  0 ≤ p.1 ∧ p.1 < gridRows g ∧ 0 ≤ p.2 ∧ p.2 < gridCols g

/-- `p` is an in-bounds non-obstacle cell (Traversable or Source). -/
def freeCell (g : Grid) (p : Pos) : Prop := inBounds g p ∧ gridAt g p.1 p.2 ≠ 2

/-- One 4-connected step. -/
def adjStep (p q : Pos) : Prop := ∃ d ∈ directions, q = (p.1 + d.1, p.2 + d.2)

/-- `IsPath g s p n`: some length-`n` walk leads from `s` to `p` through
non-obstacle in-bounds cells (endpoints included). -/
inductive IsPath (g : Grid) (s : Pos) : Pos → Nat → Prop
  | nil : freeCell g s → IsPath g s s 0
  | cons {p q : Pos} {n : Nat} : IsPath g s p n → adjStep p q → freeCell g q →
      IsPath g s q (n + 1)

/-- `n` is the exact shortest 4-connected hop distance from `s` to `p`. -/
def sdIs (g : Grid) (s : Pos) (p : Pos) (n : Nat) : Prop :=
  IsPath g s p n ∧ ∀ m : Nat, m < n → ¬IsPath g s p m

/-- Number of in-grid cells still holding the `-1` sentinel: together with
the queue length this is the strictly decreasing measure of the BFS loop. -/
def unsetCount (g : Grid) (D : DistMap) : Nat :=
  ((cellsOf g).toFinset.filter (fun x => D x.1 x.2 = -1)).card

/-- Shape of the BFS queue: empty, or a nonempty block at some level `ℓ`
followed by a block at level `ℓ+1`, with every free cell at shortest
distance `≤ ℓ` already discovered. -/
def LevelShape (g : Grid) (s : Pos) (D : DistMap) (Q : List Pos) : Prop :=
  Q = [] ∨ ∃ (ℓ : Nat) (A B : List Pos), Q = A ++ B ∧ A ≠ [] ∧
    (∀ a ∈ A, D a.1 a.2 = (ℓ : Int)) ∧ (∀ b ∈ B, D b.1 b.2 = (ℓ : Int) + 1) ∧
    (∀ p : Pos, ∀ k : Nat, sdIs g s p k → k ≤ ℓ → D p.1 p.2 ≠ -1)

/-- Invariant of the standard BFS loop: the start is discovered, every
discovered entry is the exact shortest distance of a free cell, queue
members are discovered, fully processed cells have all their free
neighbors discovered, and the queue is level-shaped. -/
structure BfsInv (g : Grid) (s : Pos) (st : ParkingSystemStandard.BfsSt) : Prop where
  start_set : st.distance s.1 s.2 ≠ -1
  exact : ∀ p : Pos, st.distance p.1 p.2 ≠ -1 →
    freeCell g p ∧ ∃ n : Nat, st.distance p.1 p.2 = (n : Int) ∧ sdIs g s p n
  queue_set : ∀ q ∈ st.queue, st.distance q.1 q.2 ≠ -1
  frontier : ∀ p : Pos, st.distance p.1 p.2 ≠ -1 → p ∉ st.queue →
    ∀ q : Pos, adjStep p q → freeCell g q → st.distance q.1 q.2 ≠ -1
  shape : LevelShape g s st.distance st.queue

/-- Invariant of the optimized BFS loop relative to a start cell `s` and
the incoming accumulators `t₀`, `r₀`: the start stays visited and its
`reachCount` entry is never touched, distance entries never go below the
`-1` sentinel, every cell receives at most one `reachCount` increment,
unvisited cells are untouched, and `totalDist` only grows. -/
structure OptInv (s : Pos) (t₀ r₀ : DistMap) (st : ParkingSystemOptimized.BfsSt) : Prop where
  start_set : st.distance s.1 s.2 ≠ -1
  start_reach : st.reachCount s.1 s.2 = r₀ s.1 s.2
  dist_lb : ∀ a b : Int, -1 ≤ st.distance a b
  reach_le : ∀ a b : Int, st.reachCount a b ≤ r₀ a b + 1
  reach_unset : ∀ a b : Int, st.distance a b = -1 → st.reachCount a b = r₀ a b
  total_mono : ∀ a b : Int, t₀ a b ≤ st.totalDist a b

/-!
## Theorems

General lemmas about the shared pieces, then the claim theorems.
-/

theorem setD_self (d : DistMap) (r c v : Int) : setD d r c v r c = v := by
  simp [setD]

theorem setD_other (d : DistMap) {r c a b : Int} (v : Int) (h : ¬(a = r ∧ b = c)) :
    setD d r c v a b = d a b := by
  simp only [setD, if_neg h]

theorem cellsOf_coord_nonneg {g : Grid} {p : Pos} (hp : p ∈ cellsOf g) :
    0 ≤ p.1 ∧ 0 ≤ p.2 := by
  unfold cellsOf at hp
  rw [List.mem_flatMap] at hp
  obtain ⟨i, hi, hp2⟩ := hp
  rw [List.mem_map] at hp2
  obtain ⟨j, hj, h⟩ := hp2
  rw [← h]
  exact ⟨Int.natCast_nonneg i, Int.natCast_nonneg j⟩

theorem extractSources_subset_cells {g : Grid} {p : Pos} (hp : p ∈ extractSources g) :
    p ∈ cellsOf g :=
  (List.mem_filter.mp hp).1

/-- A selection fold either returns its initial state untouched, or ends
on the record of some scanned candidate that passed the guard `C` with
aggregate `val`. -/
theorem selFold_origin {f : SelOut → Pos → SelOut} {val : Pos → Int} {C : Pos → Prop}
    (hf : ∀ b q, f b q = b ∨
      (f b q = { bestDist := val q, bestR := q.1, bestC := q.2 } ∧ C q)) :
    ∀ (cells : List Pos) (b₀ : SelOut),
      cells.foldl f b₀ = b₀ ∨
      ∃ q ∈ cells, cells.foldl f b₀ = { bestDist := val q, bestR := q.1, bestC := q.2 } ∧ C q := by
  intro cells
  induction cells with
  | nil => intro b₀; exact Or.inl rfl
  | cons c cs ih =>
    intro b₀
    rw [List.foldl_cons]
    rcases hf b₀ c with h | ⟨h, hC⟩
    · rw [h]
      rcases ih b₀ with h2 | ⟨q, hq, h2, hC2⟩
      · exact Or.inl h2
      · exact Or.inr ⟨q, List.mem_cons_of_mem _ hq, h2, hC2⟩
    · rw [h]
      rcases ih { bestDist := val c, bestR := c.1, bestC := c.2 } with h2 | ⟨q, hq, h2, hC2⟩
      · exact Or.inr ⟨c, List.mem_cons_self c cs, h2, hC⟩
      · exact Or.inr ⟨q, List.mem_cons_of_mem _ hq, h2, hC2⟩

/-- A selection fold whose guard fails on every scanned candidate returns
its initial state. -/
theorem selFold_id {f : SelOut → Pos → SelOut} :
    ∀ (cells : List Pos) (b₀ : SelOut), (∀ b, ∀ q ∈ cells, f b q = b) →
      cells.foldl f b₀ = b₀ := by
  intro cells
  induction cells with
  | nil => intro b₀ _; rfl
  | cons c cs ih =>
    intro b₀ h
    rw [List.foldl_cons, h b₀ c (List.mem_cons_self c cs)]
    exact ih b₀ (fun b q hq => h b q (List.mem_cons_of_mem _ hq))

theorem optimized_selectStep_spec (g : Grid) (t r : DistMap) (k : Int) (b : SelOut) (q : Pos) :
    ParkingSystemOptimized.selectStep g t r k b q = b ∨
    (ParkingSystemOptimized.selectStep g t r k b q =
        { bestDist := t q.1 q.2, bestR := q.1, bestC := q.2 } ∧
      (gridAt g q.1 q.2 ≠ 2 ∧ r q.1 q.2 = k)) := by
  unfold ParkingSystemOptimized.selectStep
  by_cases h1 : gridAt g q.1 q.2 = 2
  · rw [if_pos h1]; exact Or.inl rfl
  · rw [if_neg h1]
    by_cases h2 : r q.1 q.2 = k ∧ t q.1 q.2 < b.bestDist
    · rw [if_pos h2]; exact Or.inr ⟨rfl, h1, h2.1⟩
    · rw [if_neg h2]; exact Or.inl rfl

theorem standard_selectStep_spec (g : Grid) (allD : List DistMap) (k : Int)
    (b : SelOut) (q : Pos) :
    ParkingSystemStandard.selectStep g allD k b q = b ∨
    (ParkingSystemStandard.selectStep g allD k b q =
        { bestDist := (ParkingSystemStandard.aggLoop q.1 q.2 allD (0, 0)).1,
          bestR := q.1, bestC := q.2 } ∧
      (gridAt g q.1 q.2 ≠ 2 ∧ (ParkingSystemStandard.aggLoop q.1 q.2 allD (0, 0)).2 = k)) := by
  by_cases h1 : gridAt g q.1 q.2 = 2
  · left
    simp only [ParkingSystemStandard.selectStep, if_pos h1]
  · by_cases h2 : (ParkingSystemStandard.aggLoop q.1 q.2 allD (0, 0)).2 = k ∧
        (ParkingSystemStandard.aggLoop q.1 q.2 allD (0, 0)).1 < b.bestDist
    · right
      refine ⟨?_, h1, h2.1⟩
      simp only [ParkingSystemStandard.selectStep, if_neg h1]
      rw [if_pos h2]
    · left
      simp only [ParkingSystemStandard.selectStep, if_neg h1]
      rw [if_neg h2]

theorem aggLoop_reach_lt (i j : Int) :
    ∀ (l : List DistMap) (acc : Int × Int), (∃ d ∈ l, d i j = -1) →
      (ParkingSystemStandard.aggLoop i j l acc).2 < acc.2 + (l.length : Int) := by
  intro l
  induction l with
  | nil =>
    intro acc h
    obtain ⟨d, hd, _⟩ := h
    exact absurd hd (List.not_mem_nil d)
  | cons d rest ih =>
    intro acc h
    simp only [ParkingSystemStandard.aggLoop]
    by_cases hd : d i j = -1
    · rw [if_pos hd]
      have hlen : (0 : Int) ≤ (rest.length : Int) := Int.natCast_nonneg _
      simp only [List.length_cons]
      push_cast
      omega
    · rw [if_neg hd]
      obtain ⟨e, he, hev⟩ := h
      rcases List.mem_cons.mp he with rfl | he2
      · exact absurd hev hd
      · have := ih (d i j, acc.2 + 1) ⟨e, he2, hev⟩
        simp only [List.length_cons]
        push_cast
        push_cast at this
        omega

theorem aggLoop_full_reach (i j : Int) :
    ∀ (l : List DistMap) (acc : Int × Int), (∀ d ∈ l, d i j ≠ -1) →
      (ParkingSystemStandard.aggLoop i j l acc).2 = acc.2 + (l.length : Int) := by
  intro l
  induction l with
  | nil => intro acc _; simp [ParkingSystemStandard.aggLoop]
  | cons d rest ih =>
    intro acc h
    simp only [ParkingSystemStandard.aggLoop]
    rw [if_neg (h d (List.mem_cons_self d rest))]
    have := ih (d i j, acc.2 + 1) (fun e he => h e (List.mem_cons_of_mem _ he))
    simp only [List.length_cons]
    push_cast
    push_cast at this
    omega

theorem aggLoop_fst_nonneg (i j : Int) :
    ∀ (l : List DistMap) (acc : Int × Int), 0 ≤ acc.1 → (∀ d ∈ l, -1 ≤ d i j) →
      0 ≤ (ParkingSystemStandard.aggLoop i j l acc).1 := by
  intro l
  induction l with
  | nil => intro acc h _; exact h
  | cons d rest ih =>
    intro acc h hl
    simp only [ParkingSystemStandard.aggLoop]
    by_cases hd : d i j = -1
    · rw [if_pos hd]; exact h
    · rw [if_neg hd]
      refine ih (d i j, acc.2 + 1) ?_ (fun e he => hl e (List.mem_cons_of_mem _ he))
      have := hl d (List.mem_cons_self d rest)
      show 0 ≤ d i j
      omega

theorem std_visit_dist_lb (g : Grid) (m n row col : Int)
    (st : ParkingSystemStandard.BfsSt) (d : Pos)
    (h : ∀ a b : Int, -1 ≤ st.distance a b) :
    ∀ a b : Int, -1 ≤ (ParkingSystemStandard.bfsVisit g m n row col st d).distance a b := by
  intro a b
  unfold ParkingSystemStandard.bfsVisit
  split
  · show -1 ≤ setD st.distance (row + d.1) (col + d.2) (st.distance row col + 1) a b
    unfold setD
    split
    · have := h row col; omega
    · exact h a b
  · exact h a b

theorem std_process_dist_lb (g : Grid) (m n row col : Int) :
    ∀ (ds : List Pos) (st : ParkingSystemStandard.BfsSt),
      (∀ a b : Int, -1 ≤ st.distance a b) →
      ∀ a b : Int,
        -1 ≤ (ds.foldl (ParkingSystemStandard.bfsVisit g m n row col) st).distance a b := by
  intro ds
  induction ds with
  | nil => intro st h; exact h
  | cons d rest ih =>
    intro st h
    rw [List.foldl_cons]
    exact ih _ (std_visit_dist_lb g m n row col st d h)

theorem std_loop_dist_lb (g : Grid) (m n : Int) :
    ∀ (fuel : Nat) (st : ParkingSystemStandard.BfsSt),
      (∀ a b : Int, -1 ≤ st.distance a b) →
      ∀ a b : Int, -1 ≤ ParkingSystemStandard.bfsLoop g m n fuel st a b := by
  intro fuel
  induction fuel with
  | zero => intro st h; exact h
  | succ fuel ih =>
    intro st h
    rw [ParkingSystemStandard.bfsLoop]
    cases hq : st.queue with
    | nil => exact h
    | cons p rest =>
      exact ih _ (std_process_dist_lb g m n p.1 p.2 directions
        { distance := st.distance, queue := rest } h)

theorem std_bfs_entry_lb (g : Grid) (i j a b : Int) :
    -1 ≤ ParkingSystemStandard.bfs g i j a b := by
  unfold ParkingSystemStandard.bfs
  refine std_loop_dist_lb g (gridRows g) (gridCols g) _ _ ?_ a b
  intro a b
  show -1 ≤ setD (constMap (-1)) i j 0 a b
  unfold setD constMap
  split
  · omega
  · omega

theorem allMaps_entry_lb (g : Grid) {d : DistMap}
    (hd : d ∈ ParkingSystemStandard.allDistanceMaps g) (a b : Int) : -1 ≤ d a b := by
  unfold ParkingSystemStandard.allDistanceMaps ParkingSystemStandard.allMapsOf at hd
  rw [List.mem_map] at hd
  obtain ⟨p, _, rfl⟩ := hd
  exact std_bfs_entry_lb g p.1 p.2 a b

theorem opt_visit_inv {s : Pos} {t₀ r₀ : DistMap} (g : Grid) (m n row col : Int)
    (st : ParkingSystemOptimized.BfsSt) (d : Pos) (h : OptInv s t₀ r₀ st) :
    OptInv s t₀ r₀ (ParkingSystemOptimized.bfsVisit g m n row col st d) := by
  unfold ParkingSystemOptimized.bfsVisit
  split
  case isTrue hc =>
    have hnew : st.distance (row + d.1) (col + d.2) = -1 := hc.2.2.2.2.1
    have hsne : ¬(s.1 = row + d.1 ∧ s.2 = col + d.2) := by
      intro hab
      exact h.start_set (by rw [hab.1, hab.2]; exact hnew)
    have hval : (-1 : Int) < st.distance row col + 1 := by
      have := h.dist_lb row col; omega
    refine ⟨?_, ?_, ?_, ?_, ?_, ?_⟩
    · show setD st.distance (row + d.1) (col + d.2) (st.distance row col + 1) s.1 s.2 ≠ -1
      unfold setD
      rw [if_neg hsne]
      exact h.start_set
    · show setD st.reachCount (row + d.1) (col + d.2)
        (st.reachCount (row + d.1) (col + d.2) + 1) s.1 s.2 = r₀ s.1 s.2
      unfold setD
      rw [if_neg hsne]
      exact h.start_reach
    · intro a b
      show -1 ≤ setD st.distance (row + d.1) (col + d.2) (st.distance row col + 1) a b
      unfold setD
      split
      · omega
      · exact h.dist_lb a b
    · intro a b
      show setD st.reachCount (row + d.1) (col + d.2)
        (st.reachCount (row + d.1) (col + d.2) + 1) a b ≤ r₀ a b + 1
      unfold setD
      split
      case isTrue hab =>
        have : st.distance a b = -1 := by rw [hab.1, hab.2]; exact hnew
        have := h.reach_unset a b this
        rw [hab.1, hab.2] at this ⊢
        omega
      case isFalse hab => exact h.reach_le a b
    · intro a b hd2
      have hd3 : setD st.distance (row + d.1) (col + d.2) (st.distance row col + 1) a b
          = -1 := hd2
      simp only [setD] at hd3
      show setD st.reachCount (row + d.1) (col + d.2)
        (st.reachCount (row + d.1) (col + d.2) + 1) a b = r₀ a b
      by_cases hab : a = row + d.1 ∧ b = col + d.2
      · rw [if_pos hab] at hd3
        omega
      · rw [if_neg hab] at hd3
        unfold setD
        rw [if_neg hab]
        exact h.reach_unset a b hd3
    · intro a b
      show t₀ a b ≤ setD st.totalDist (row + d.1) (col + d.2)
        (st.totalDist (row + d.1) (col + d.2) + (st.distance row col + 1)) a b
      unfold setD
      split
      case isTrue hab =>
        have h1 := h.total_mono (row + d.1) (col + d.2)
        rw [hab.1, hab.2]
        omega
      case isFalse hab => exact h.total_mono a b
  case isFalse hc => exact h

theorem opt_process_inv {s : Pos} {t₀ r₀ : DistMap} (g : Grid) (m n row col : Int) :
    ∀ (ds : List Pos) (st : ParkingSystemOptimized.BfsSt), OptInv s t₀ r₀ st →
      OptInv s t₀ r₀ (ds.foldl (ParkingSystemOptimized.bfsVisit g m n row col) st) := by
  intro ds
  induction ds with
  | nil => intro st h; exact h
  | cons d rest ih =>
    intro st h
    rw [List.foldl_cons]
    exact ih _ (opt_visit_inv g m n row col st d h)

theorem opt_loop_inv {s : Pos} {t₀ r₀ : DistMap} (g : Grid) (m n : Int) :
    ∀ (fuel : Nat) (st : ParkingSystemOptimized.BfsSt), OptInv s t₀ r₀ st →
      OptInv s t₀ r₀ (ParkingSystemOptimized.bfsLoop g m n fuel st) := by
  intro fuel
  induction fuel with
  | zero => intro st h; exact h
  | succ fuel ih =>
    intro st h
    rw [ParkingSystemOptimized.bfsLoop]
    cases hq : st.queue with
    | nil => exact h
    | cons p rest =>
      refine ih _ (opt_process_inv g m n p.1 p.2 directions _ ?_)
      exact ⟨h.start_set, h.start_reach, h.dist_lb, h.reach_le, h.reach_unset, h.total_mono⟩

theorem opt_bfsFinal_inv (g : Grid) (i j : Int) (t r : DistMap) :
    OptInv (i, j) t r (ParkingSystemOptimized.bfsFinal g i j t r) := by
  unfold ParkingSystemOptimized.bfsFinal
  refine opt_loop_inv g (gridRows g) (gridCols g) _ _ ?_
  refine ⟨?_, rfl, ?_, ?_, ?_, ?_⟩
  · show setD (constMap (-1)) i j 0 i j ≠ -1
    rw [setD_self]
    omega
  · intro a b
    show -1 ≤ setD (constMap (-1)) i j 0 a b
    unfold setD constMap
    split
    · omega
    · omega
  · intro a b
    show r a b ≤ r a b + 1
    omega
  · intro a b _
    rfl
  · intro a b
    show t a b ≤ t a b
    omega

theorem opt_bfs_reach_start (g : Grid) (i j : Int) (t r : DistMap) :
    (ParkingSystemOptimized.bfs g i j t r).2 i j = r i j :=
  (opt_bfsFinal_inv g i j t r).start_reach

theorem opt_bfs_reach_le (g : Grid) (i j : Int) (t r : DistMap) (a b : Int) :
    (ParkingSystemOptimized.bfs g i j t r).2 a b ≤ r a b + 1 :=
  (opt_bfsFinal_inv g i j t r).reach_le a b

theorem opt_bfs_total_mono (g : Grid) (i j : Int) (t r : DistMap) (a b : Int) :
    t a b ≤ (ParkingSystemOptimized.bfs g i j t r).1 a b :=
  (opt_bfsFinal_inv g i j t r).total_mono a b

theorem accFold_reach_le (g : Grid) :
    ∀ (spots : List Pos) (acc : DistMap × DistMap) (a b : Int),
      (spots.foldl (fun acc p => ParkingSystemOptimized.bfs g p.1 p.2 acc.1 acc.2) acc).2 a b
        ≤ acc.2 a b + (spots.length : Int) := by
  intro spots
  induction spots with
  | nil => intro acc a b; simp
  | cons p rest ih =>
    intro acc a b
    simp only [List.foldl_cons, List.length_cons]
    have h1 := opt_bfs_reach_le g p.1 p.2 acc.1 acc.2 a b
    have h2 := ih (ParkingSystemOptimized.bfs g p.1 p.2 acc.1 acc.2) a b
    push_cast
    push_cast at h2
    omega

theorem accFold_reach_start (g : Grid) :
    ∀ (spots : List Pos) (acc : DistMap × DistMap) (s : Pos), s ∈ spots →
      (spots.foldl (fun acc p => ParkingSystemOptimized.bfs g p.1 p.2 acc.1 acc.2) acc).2 s.1 s.2
        ≤ acc.2 s.1 s.2 + (spots.length : Int) - 1 := by
  intro spots
  induction spots with
  | nil =>
    intro acc s hs
    exact absurd hs (List.not_mem_nil s)
  | cons p rest ih =>
    intro acc s hs
    simp only [List.foldl_cons, List.length_cons]
    rcases List.mem_cons.mp hs with rfl | hs2
    · have h1 := opt_bfs_reach_start g s.1 s.2 acc.1 acc.2
      have h2 := accFold_reach_le g rest (ParkingSystemOptimized.bfs g s.1 s.2 acc.1 acc.2) s.1 s.2
      push_cast
      push_cast at h2
      omega
    · have h1 := opt_bfs_reach_le g p.1 p.2 acc.1 acc.2 s.1 s.2
      have h2 := ih (ParkingSystemOptimized.bfs g p.1 p.2 acc.1 acc.2) s hs2
      push_cast
      push_cast at h2
      omega

theorem accFold_total_mono (g : Grid) :
    ∀ (spots : List Pos) (acc : DistMap × DistMap) (a b : Int),
      acc.1 a b ≤
        (spots.foldl (fun acc p => ParkingSystemOptimized.bfs g p.1 p.2 acc.1 acc.2) acc).1 a b := by
  intro spots
  induction spots with
  | nil => intro acc a b; simp
  | cons p rest ih =>
    intro acc a b
    simp only [List.foldl_cons]
    have h1 := opt_bfs_total_mono g p.1 p.2 acc.1 acc.2 a b
    have h2 := ih (ParkingSystemOptimized.bfs g p.1 p.2 acc.1 acc.2) a b
    omega

/-- C1: the claimed equivalence of the two modes fails on the code.  On
the demonstration grid the materialized engine selects `(2, 2)` with
aggregate `0` while the streaming engine selects `(1, 2)` with aggregate
`7`: the materialized aggregation loop overwrites `totalDist` with
`allDistances[k][i][j]` instead of adding it, so it minimizes the
distance to the last-listed source rather than the sum. -/
theorem c1_mode_equivalence_fails_on_demo :
    ParkingSystemStandard.findOptimalSpotFull demoGrid =
      { bestDist := 0, bestR := 2, bestC := 2 } ∧
    ParkingSystemOptimized.findOptimalSpotFull demoGrid =
      { bestDist := 7, bestR := 1, bestC := 2 } ∧
    (ParkingSystemStandard.findOptimalSpotFull demoGrid).cell ≠
      (ParkingSystemOptimized.findOptimalSpotFull demoGrid).cell ∧
    ParkingSystemStandard.findOptimalSpot demoGrid ≠
      ParkingSystemOptimized.findOptimalSpot demoGrid := by
  refine ⟨by decide, by decide, by decide, by decide⟩

/-- C2: in materialized mode the aggregate compared during selection is
not the sum of the per-source BFS distances.  On the demonstration grid,
at candidate `(1, 2)` the per-source distances are `3, 3, 1` (sum `7`),
but the aggregation loop yields `1` — the distance to the last source
only — and the selector consequently picks `(2, 2)`, not the sum
minimizer `(1, 2)`. -/
theorem c2_materialized_aggregate_is_not_sum :
    (ParkingSystemStandard.aggLoop 1 2 (ParkingSystemStandard.allDistanceMaps demoGrid)
      (0, 0)).1 = 1 ∧
    (ParkingSystemStandard.aggLoop 1 2 (ParkingSystemStandard.allDistanceMaps demoGrid)
      (0, 0)).2 = 3 ∧
    ((ParkingSystemStandard.allDistanceMaps demoGrid).map (fun d => d 1 2)).sum = 7 ∧
    (ParkingSystemStandard.findOptimalSpotFull demoGrid).cell = (2, 2) := by
  refine ⟨by decide, by decide, by decide, by decide⟩

/-- C3: on the literal 3×5 scenario grid, the streaming engine selects
`(1, 2)` as the spec claims, but the materialized engine selects
`(2, 2)` (with aggregate `0`), so the claimed common selection fails. -/
theorem c3_demo_grid_selected_cells :
    (ParkingSystemOptimized.findOptimalSpotFull demoGrid).cell = (1, 2) ∧
    (ParkingSystemStandard.findOptimalSpotFull demoGrid).cell = (2, 2) ∧
    ((2 : Int), (2 : Int)) ≠ ((1 : Int), (2 : Int)) := by
  refine ⟨by decide, by decide, by decide⟩

/-- C4: on the single-source grid `[[1]]` the materialized engine selects
the source cell `(0, 0)` with aggregate `0`, but the streaming engine
returns no valid location (`-1`): its BFS never increments `reachCount`
at its own start cell, so the sole source cell keeps `reachCount = 0` and
is excluded. -/
theorem c4_streaming_misses_single_source :
    extractSources singleSourceGrid = [(0, 0)] ∧
    ParkingSystemStandard.findOptimalSpotFull singleSourceGrid =
      { bestDist := 0, bestR := 0, bestC := 0 } ∧
    ParkingSystemOptimized.findOptimalSpotFull singleSourceGrid =
      { bestDist := intMax, bestR := -1, bestC := -1 } ∧
    ParkingSystemOptimized.findOptimalSpot singleSourceGrid = -1 := by
  refine ⟨by decide, by decide, by decide, by decide⟩

/-- C5: permuting the source list changes the materialized selection.  On
the grid `[[1, 0, 1]]` the source list extrated row-major is
`[(0,0), (0,2)]` and the materialized engine selects `(0, 2)`; with the
reversed (permuted) list it selects `(0, 0)` — the overwriting
aggregation makes the result depend on which source is traversed last. -/
theorem c5_materialized_selection_order_dependent :
    extractSources rowGrid = [(0, 0), (0, 2)] ∧
    (ParkingSystemStandard.run rowGrid [(0, 0), (0, 2)]).cell = (0, 2) ∧
    (ParkingSystemStandard.run rowGrid [(0, 2), (0, 0)]).cell = (0, 0) ∧
    (ParkingSystemStandard.run rowGrid [(0, 0), (0, 2)]).cell ≠
      (ParkingSystemStandard.run rowGrid [(0, 2), (0, 0)]).cell := by
  refine ⟨by decide, by decide, by decide, by decide⟩

/-- C8: requesting Minimax, MaxMin, or Weighted aggregation together with
streaming mode fails with `UnsupportedStrategyForMode` at configuration
time, with zero BFS traversals run. -/
theorem c8_streaming_rejects_non_sum (g : Grid) (s : Strategy)
    (hs : s ≠ Strategy.Sum) :
    runQuery MemoryMode.Streaming s g =
      (Except.error EngineError.UnsupportedStrategyForMode, 0) := by
  cases s with
  | Sum => exact absurd rfl hs
  | Minimax => rfl
  | MaxMin => rfl
  | Weighted => rfl

/-- Witness for C8 at a concrete input: Minimax under streaming mode on
the demonstration grid. -/
theorem c8_streaming_rejects_non_sum_witness :
    runQuery MemoryMode.Streaming Strategy.Minimax demoGrid =
      (Except.error EngineError.UnsupportedStrategyForMode, 0) :=
  c8_streaming_rejects_non_sum demoGrid Strategy.Minimax (by decide)

/-- C6: a candidate cell that is not reached by every source — in
streaming mode, `reachCount` strictly below the number of sources; in
materialized mode, some retained distance map holding the unreached
sentinel there — is never the selected cell of the query. -/
theorem c6_unreached_candidate_never_selected (g : Grid) (p : Pos)
    (hp : p ∈ cellsOf g) :
    (((ParkingSystemOptimized.accumulate g (extractSources g)).2 p.1 p.2 <
        ((extractSources g).length : Int)) →
      (ParkingSystemOptimized.findOptimalSpotFull g).cell ≠ p) ∧
    ((∃ d ∈ ParkingSystemStandard.allDistanceMaps g, d p.1 p.2 = -1) →
      (ParkingSystemStandard.findOptimalSpotFull g).cell ≠ p) := by
  have hpnn := cellsOf_coord_nonneg hp
  constructor
  · intro hlt hcell
    have hcell2 : (List.foldl
        (ParkingSystemOptimized.selectStep g
          (ParkingSystemOptimized.accumulate g (extractSources g)).1
          (ParkingSystemOptimized.accumulate g (extractSources g)).2
          ((extractSources g).length : Int))
        { bestDist := intMax, bestR := -1, bestC := -1 } (cellsOf g)).cell = p := hcell
    rcases selFold_origin
        (fun b q => optimized_selectStep_spec g
          (ParkingSystemOptimized.accumulate g (extractSources g)).1
          (ParkingSystemOptimized.accumulate g (extractSources g)).2
          ((extractSources g).length : Int) b q)
        (cellsOf g) { bestDist := intMax, bestR := -1, bestC := -1 } with h0 | ⟨q, _, heq, hC⟩
    · rw [h0] at hcell2
      have h3 : ((-1 : Int), (-1 : Int)) = p := hcell2
      have h4 : p.1 = -1 := by rw [← h3]
      omega
    · rw [heq] at hcell2
      have h3 : (q.1, q.2) = p := hcell2
      have h4 : (ParkingSystemOptimized.accumulate g (extractSources g)).2 p.1 p.2 =
          ((extractSources g).length : Int) := by
        rw [← h3]
        exact hC.2
      omega
  · intro hex hcell
    have hcell2 : (List.foldl
        (ParkingSystemStandard.selectStep g
          (ParkingSystemStandard.allMapsOf g (extractSources g))
          ((extractSources g).length : Int))
        { bestDist := intMax, bestR := -1, bestC := -1 } (cellsOf g)).cell = p := hcell
    rcases selFold_origin
        (fun b q => standard_selectStep_spec g
          (ParkingSystemStandard.allMapsOf g (extractSources g))
          ((extractSources g).length : Int) b q)
        (cellsOf g) { bestDist := intMax, bestR := -1, bestC := -1 } with h0 | ⟨q, _, heq, hC⟩
    · rw [h0] at hcell2
      have h3 : ((-1 : Int), (-1 : Int)) = p := hcell2
      have h4 : p.1 = -1 := by rw [← h3]
      omega
    · rw [heq] at hcell2
      have h3 : (q.1, q.2) = p := hcell2
      have hex2 : ∃ d ∈ ParkingSystemStandard.allMapsOf g (extractSources g),
          d p.1 p.2 = -1 := hex
      have hagg := aggLoop_reach_lt p.1 p.2
        (ParkingSystemStandard.allMapsOf g (extractSources g)) (0, 0) hex2
      have hagg2 : (ParkingSystemStandard.aggLoop p.1 p.2
          (ParkingSystemStandard.allMapsOf g (extractSources g)) (0, 0)).2 <
          0 + ((ParkingSystemStandard.allMapsOf g (extractSources g)).length : Int) := hagg
      have hlen : (ParkingSystemStandard.allMapsOf g (extractSources g)).length =
          (extractSources g).length := by
        unfold ParkingSystemStandard.allMapsOf
        simp
      rw [hlen] at hagg2
      have h4 : (ParkingSystemStandard.aggLoop p.1 p.2
          (ParkingSystemStandard.allMapsOf g (extractSources g)) (0, 0)).2 =
          ((extractSources g).length : Int) := by
        rw [← h3]
        exact hC.2
      omega

/-- Witness for C6: on the demonstration grid, the source cell `(0, 0)`
has streaming `reachCount` `2 < 3`, so streaming never selects it; the
obstacle cell `(0, 2)` is unreached in every retained map, so the
materialized engine never selects it. -/
theorem c6_unreached_candidate_never_selected_witness :
    (ParkingSystemOptimized.findOptimalSpotFull demoGrid).cell ≠ ((0 : Int), (0 : Int)) ∧
    (ParkingSystemStandard.findOptimalSpotFull demoGrid).cell ≠ ((0 : Int), (2 : Int)) :=
  ⟨(c6_unreached_candidate_never_selected demoGrid (0, 0) (by decide)).1 (by decide),
   (c6_unreached_candidate_never_selected demoGrid (0, 2) (by decide)).2 (by decide)⟩

/-- C10: in streaming mode a BFS never touches `reachCount` at its own
start cell, so after all `k` traversals every source cell has
`reachCount ≤ k - 1` and is never the selected cell of the streaming
query. -/
theorem c10_source_never_selected_streaming (g : Grid) (s : Pos)
    (hs : s ∈ extractSources g) :
    (ParkingSystemOptimized.accumulate g (extractSources g)).2 s.1 s.2 ≤
      ((extractSources g).length : Int) - 1 ∧
    (ParkingSystemOptimized.findOptimalSpotFull g).cell ≠ s := by
  have hreach : (ParkingSystemOptimized.accumulate g (extractSources g)).2 s.1 s.2 ≤
      0 + ((extractSources g).length : Int) - 1 :=
    accFold_reach_start g (extractSources g) (constMap 0, constMap 0) s hs
  have hpnn := cellsOf_coord_nonneg (extractSources_subset_cells hs)
  refine ⟨by omega, ?_⟩
  intro hcell
  have hcell2 : (List.foldl
      (ParkingSystemOptimized.selectStep g
        (ParkingSystemOptimized.accumulate g (extractSources g)).1
        (ParkingSystemOptimized.accumulate g (extractSources g)).2
        ((extractSources g).length : Int))
      { bestDist := intMax, bestR := -1, bestC := -1 } (cellsOf g)).cell = s := hcell
  rcases selFold_origin
      (fun b q => optimized_selectStep_spec g
        (ParkingSystemOptimized.accumulate g (extractSources g)).1
        (ParkingSystemOptimized.accumulate g (extractSources g)).2
        ((extractSources g).length : Int) b q)
      (cellsOf g) { bestDist := intMax, bestR := -1, bestC := -1 } with h0 | ⟨q, _, heq, hC⟩
  · rw [h0] at hcell2
    have h3 : ((-1 : Int), (-1 : Int)) = s := hcell2
    have h4 : s.1 = -1 := by rw [← h3]
    omega
  · rw [heq] at hcell2
    have h3 : (q.1, q.2) = s := hcell2
    have h4 : (ParkingSystemOptimized.accumulate g (extractSources g)).2 s.1 s.2 =
        ((extractSources g).length : Int) := by
      rw [← h3]
      exact hC.2
    omega

/-- Witness for C10: on the demonstration grid the source `(0, 0)` has
streaming `reachCount` at most `2` and is not the selected cell. -/
theorem c10_source_never_selected_streaming_witness :
    (ParkingSystemOptimized.accumulate demoGrid (extractSources demoGrid)).2 0 0 ≤
      ((extractSources demoGrid).length : Int) - 1 ∧
    (ParkingSystemOptimized.findOptimalSpotFull demoGrid).cell ≠ ((0 : Int), (0 : Int)) :=
  c10_source_never_selected_streaming demoGrid (0, 0) (by decide)

/-- C9 counterexample: on the wall grid (two sources separated by a full
column of obstacles) both engines convey the no-valid-location outcome as
the sentinel numeric return value `-1` of the C++ `int`-returning query —
not as a tagged result. -/
theorem c9_counterexample_sentinel_return :
    ParkingSystemStandard.findOptimalSpotFull wallGrid =
      { bestDist := intMax, bestR := -1, bestC := -1 } ∧
    ParkingSystemStandard.findOptimalSpot wallGrid = -1 ∧
    ParkingSystemOptimized.findOptimalSpot wallGrid = -1 := by
  refine ⟨by decide, by decide, by decide⟩

/-- C9 (amended): when no candidate is reachable by every source, both
engines return the sentinel numeric value `-1`; the sentinel remains
distinguishable from every successful result, whose returned aggregate is
always non-negative. -/
theorem c9_notfound_returns_sentinel (g : Grid) :
    ((∀ p ∈ cellsOf g, gridAt g p.1 p.2 ≠ 2 →
        (ParkingSystemOptimized.accumulate g (extractSources g)).2 p.1 p.2 ≠
          ((extractSources g).length : Int)) →
      ParkingSystemOptimized.findOptimalSpot g = -1) ∧
    ((∀ p ∈ cellsOf g, gridAt g p.1 p.2 ≠ 2 →
        (ParkingSystemStandard.aggLoop p.1 p.2 (ParkingSystemStandard.allDistanceMaps g)
          (0, 0)).2 ≠ ((extractSources g).length : Int)) →
      ParkingSystemStandard.findOptimalSpot g = -1) ∧
    (ParkingSystemOptimized.findOptimalSpot g = -1 ∨
      0 ≤ ParkingSystemOptimized.findOptimalSpot g) ∧
    (ParkingSystemStandard.findOptimalSpot g = -1 ∨
      0 ≤ ParkingSystemStandard.findOptimalSpot g) := by
  refine ⟨?_, ?_, ?_, ?_⟩
  · intro hnone
    have hfold : List.foldl
        (ParkingSystemOptimized.selectStep g
          (ParkingSystemOptimized.accumulate g (extractSources g)).1
          (ParkingSystemOptimized.accumulate g (extractSources g)).2
          ((extractSources g).length : Int))
        { bestDist := intMax, bestR := -1, bestC := -1 } (cellsOf g) =
        { bestDist := intMax, bestR := -1, bestC := -1 } := by
      refine selFold_id (cellsOf g) _ ?_
      intro b q hq
      unfold ParkingSystemOptimized.selectStep
      by_cases h1 : gridAt g q.1 q.2 = 2
      · rw [if_pos h1]
      · have h2 : ¬((ParkingSystemOptimized.accumulate g (extractSources g)).2 q.1 q.2 =
            ((extractSources g).length : Int) ∧
            (ParkingSystemOptimized.accumulate g (extractSources g)).1 q.1 q.2 <
              b.bestDist) := by
          intro hcon
          exact (hnone q hq h1) hcon.1
        rw [if_neg h1, if_neg h2]
    have hful : ParkingSystemOptimized.findOptimalSpotFull g =
        { bestDist := intMax, bestR := -1, bestC := -1 } := hfold
    show (if (ParkingSystemOptimized.findOptimalSpotFull g).bestR = -1 then (-1 : Int)
      else (ParkingSystemOptimized.findOptimalSpotFull g).bestDist) = -1
    rw [hful]
    rfl
  · intro hnone
    have hfold : List.foldl
        (ParkingSystemStandard.selectStep g
          (ParkingSystemStandard.allMapsOf g (extractSources g))
          ((extractSources g).length : Int))
        { bestDist := intMax, bestR := -1, bestC := -1 } (cellsOf g) =
        { bestDist := intMax, bestR := -1, bestC := -1 } := by
      refine selFold_id (cellsOf g) _ ?_
      intro b q hq
      by_cases h1 : gridAt g q.1 q.2 = 2
      · simp only [ParkingSystemStandard.selectStep, if_pos h1]
      · have h2 : ¬((ParkingSystemStandard.aggLoop q.1 q.2
            (ParkingSystemStandard.allMapsOf g (extractSources g)) (0, 0)).2 =
              ((extractSources g).length : Int) ∧
            (ParkingSystemStandard.aggLoop q.1 q.2
              (ParkingSystemStandard.allMapsOf g (extractSources g)) (0, 0)).1 <
              b.bestDist) := by
          intro hcon
          exact (hnone q hq h1) hcon.1
        simp only [ParkingSystemStandard.selectStep, if_neg h1]
        rw [if_neg h2]
    have hful : ParkingSystemStandard.findOptimalSpotFull g =
        { bestDist := intMax, bestR := -1, bestC := -1 } := hfold
    show (if (ParkingSystemStandard.findOptimalSpotFull g).bestR = -1 then (-1 : Int)
      else (ParkingSystemStandard.findOptimalSpotFull g).bestDist) = -1
    rw [hful]
    rfl
  · rcases selFold_origin
        (fun b q => optimized_selectStep_spec g
          (ParkingSystemOptimized.accumulate g (extractSources g)).1
          (ParkingSystemOptimized.accumulate g (extractSources g)).2
          ((extractSources g).length : Int) b q)
        (cellsOf g) { bestDist := intMax, bestR := -1, bestC := -1 } with h0 | ⟨q, hq, heq, hC⟩
    · left
      have hful : ParkingSystemOptimized.findOptimalSpotFull g =
          { bestDist := intMax, bestR := -1, bestC := -1 } := h0
      show (if (ParkingSystemOptimized.findOptimalSpotFull g).bestR = -1 then (-1 : Int)
        else (ParkingSystemOptimized.findOptimalSpotFull g).bestDist) = -1
      rw [hful]
      rfl
    · right
      have hful : ParkingSystemOptimized.findOptimalSpotFull g =
          { bestDist := (ParkingSystemOptimized.accumulate g (extractSources g)).1 q.1 q.2,
            bestR := q.1, bestC := q.2 } := heq
      have hqnn := cellsOf_coord_nonneg hq
      have hne : ¬(ParkingSystemOptimized.findOptimalSpotFull g).bestR = -1 := by
        rw [hful]
        show ¬q.1 = -1
        omega
      have hval : 0 ≤ (ParkingSystemOptimized.accumulate g (extractSources g)).1 q.1 q.2 :=
        accFold_total_mono g (extractSources g) (constMap 0, constMap 0) q.1 q.2
      show 0 ≤ (if (ParkingSystemOptimized.findOptimalSpotFull g).bestR = -1 then (-1 : Int)
        else (ParkingSystemOptimized.findOptimalSpotFull g).bestDist)
      rw [if_neg hne, hful]
      exact hval
  · rcases selFold_origin
        (fun b q => standard_selectStep_spec g
          (ParkingSystemStandard.allMapsOf g (extractSources g))
          ((extractSources g).length : Int) b q)
        (cellsOf g) { bestDist := intMax, bestR := -1, bestC := -1 } with h0 | ⟨q, hq, heq, hC⟩
    · left
      have hful : ParkingSystemStandard.findOptimalSpotFull g =
          { bestDist := intMax, bestR := -1, bestC := -1 } := h0
      show (if (ParkingSystemStandard.findOptimalSpotFull g).bestR = -1 then (-1 : Int)
        else (ParkingSystemStandard.findOptimalSpotFull g).bestDist) = -1
      rw [hful]
      rfl
    · right
      have hful : ParkingSystemStandard.findOptimalSpotFull g =
          { bestDist := (ParkingSystemStandard.aggLoop q.1 q.2
              (ParkingSystemStandard.allMapsOf g (extractSources g)) (0, 0)).1,
            bestR := q.1, bestC := q.2 } := heq
      have hqnn := cellsOf_coord_nonneg hq
      have hne : ¬(ParkingSystemStandard.findOptimalSpotFull g).bestR = -1 := by
        rw [hful]
        show ¬q.1 = -1
        omega
      have hval : 0 ≤ (ParkingSystemStandard.aggLoop q.1 q.2
          (ParkingSystemStandard.allMapsOf g (extractSources g)) (0, 0)).1 := by
        refine aggLoop_fst_nonneg q.1 q.2 _ (0, 0) (by omega) ?_
        intro d hd
        exact allMaps_entry_lb g hd q.1 q.2
      show 0 ≤ (if (ParkingSystemStandard.findOptimalSpotFull g).bestR = -1 then (-1 : Int)
        else (ParkingSystemStandard.findOptimalSpotFull g).bestDist)
      rw [if_neg hne, hful]
      exact hval

/-- Witness for C9 at the wall grid: no candidate is reachable by every
source, so both engines return `-1`. -/
theorem c9_notfound_returns_sentinel_witness :
    ParkingSystemOptimized.findOptimalSpot wallGrid = -1 ∧
    ParkingSystemStandard.findOptimalSpot wallGrid = -1 :=
  ⟨(c9_notfound_returns_sentinel wallGrid).1 (by decide),
   (c9_notfound_returns_sentinel wallGrid).2.1 (by decide)⟩

theorem isPath_free_end {g : Grid} {s p : Pos} {n : Nat} (h : IsPath g s p n) :
    freeCell g p := by
  cases h with
  | nil hf => exact hf
  | cons _ _ hf => exact hf

theorem isPath_zero {g : Grid} {s p : Pos} (h : IsPath g s p 0) : p = s := by
  cases h
  rfl

theorem isPath_succ {g : Grid} {s q : Pos} {n : Nat} (h : IsPath g s q (n + 1)) :
    ∃ p : Pos, IsPath g s p n ∧ adjStep p q ∧ freeCell g q := by
  cases h with
  | cons hp hadj hf => exact ⟨_, hp, hadj, hf⟩

theorem exists_sdIs {g : Grid} {s p : Pos} (h : ∃ n, IsPath g s p n) :
    ∃ k, sdIs g s p k ∧ ∀ n, IsPath g s p n → k ≤ n := by
  classical
  exact ⟨Nat.find h, ⟨Nat.find_spec h, fun m hm => Nat.find_min h hm⟩,
    fun n hn => Nat.find_min' h hn⟩

theorem sdIs_unique {g : Grid} {s p : Pos} {n n' : Nat} (h : sdIs g s p n)
    (h' : sdIs g s p n') : n = n' := by
  rcases Nat.lt_trichotomy n n' with hlt | heq | hgt
  · exact absurd h.1 (h'.2 n hlt)
  · exact heq
  · exact absurd h'.1 (h.2 n' hgt)

theorem mem_cellsOf {g : Grid} {p : Pos} :
    p ∈ cellsOf g ↔ 0 ≤ p.1 ∧ p.1 < gridRows g ∧ 0 ≤ p.2 ∧ p.2 < gridCols g := by
  obtain ⟨a, b⟩ := p
  unfold cellsOf gridRows gridCols
  constructor
  · intro hp
    rw [List.mem_flatMap] at hp
    obtain ⟨i, hi, hp2⟩ := hp
    rw [List.mem_map] at hp2
    obtain ⟨j, hj, h⟩ := hp2
    rw [List.mem_range] at hi
    rw [List.mem_range] at hj
    rw [Prod.mk.injEq] at h
    obtain ⟨h1, h2⟩ := h
    rw [Int.ofNat_eq_natCast] at h1
    rw [Int.ofNat_eq_natCast] at h2
    refine ⟨?_, ?_, ?_, ?_⟩ <;> omega
  · intro h
    obtain ⟨h1, h2, h3, h4⟩ := h
    rw [List.mem_flatMap]
    refine ⟨a.toNat, ?_, ?_⟩
    · rw [List.mem_range]; omega
    · rw [List.mem_map]
      refine ⟨b.toNat, ?_, ?_⟩
      · rw [List.mem_range]; omega
      · rw [Prod.mk.injEq, Int.ofNat_eq_natCast, Int.ofNat_eq_natCast]
        constructor <;> omega

theorem std_process_spec (g : Grid) (m n row col : Int) :
    ∀ (ds : List Pos) (st : ParkingSystemStandard.BfsSt),
      st.distance row col ≠ -1 → (∀ a b : Int, -1 ≤ st.distance a b) →
      ∃ new : List Pos,
        (ds.foldl (ParkingSystemStandard.bfsVisit g m n row col) st).queue
            = st.queue ++ new ∧
        (∀ x : Pos, x ∉ new →
          (ds.foldl (ParkingSystemStandard.bfsVisit g m n row col) st).distance x.1 x.2
            = st.distance x.1 x.2) ∧
        (∀ x ∈ new, st.distance x.1 x.2 = -1 ∧
          (ds.foldl (ParkingSystemStandard.bfsVisit g m n row col) st).distance x.1 x.2
            = st.distance row col + 1 ∧
          (∃ d ∈ ds, x = (row + d.1, col + d.2)) ∧
          0 ≤ x.1 ∧ x.1 < m ∧ 0 ≤ x.2 ∧ x.2 < n ∧ gridAt g x.1 x.2 ≠ 2) ∧
        (∀ d ∈ ds, 0 ≤ row + d.1 → row + d.1 < m → 0 ≤ col + d.2 → col + d.2 < n →
          st.distance (row + d.1) (col + d.2) = -1 →
          gridAt g (row + d.1) (col + d.2) ≠ 2 →
          (row + d.1, col + d.2) ∈ new) ∧
        new.Nodup := by
  intro ds
  induction ds with
  | nil =>
    intro st hset hlb
    refine ⟨[], by simp, fun x _ => rfl, fun x hx => absurd hx (List.not_mem_nil x),
      fun d hd => absurd hd (List.not_mem_nil d), List.nodup_nil⟩
  | cons d ds ih =>
    intro st hset hlb
    rw [List.foldl_cons]
    by_cases hc : 0 ≤ row + d.1 ∧ row + d.1 < m ∧ 0 ≤ col + d.2 ∧ col + d.2 < n ∧
        st.distance (row + d.1) (col + d.2) = -1 ∧ gridAt g (row + d.1) (col + d.2) ≠ 2
    · have hst1 : ParkingSystemStandard.bfsVisit g m n row col st d =
          { distance := setD st.distance (row + d.1) (col + d.2) (st.distance row col + 1),
            queue := st.queue ++ [(row + d.1, col + d.2)] } := by
        unfold ParkingSystemStandard.bfsVisit
        rw [if_pos hc]
      rw [hst1]
      have hne : ¬(row = row + d.1 ∧ col = col + d.2) := by
        intro hx
        rw [← hx.1, ← hx.2] at hc
        exact hset hc.2.2.2.2.1
      have hrc : setD st.distance (row + d.1) (col + d.2) (st.distance row col + 1) row col
          = st.distance row col := by
        unfold setD
        rw [if_neg hne]
      have hval0 : 0 ≤ st.distance row col := by
        have := hlb row col
        omega
      obtain ⟨new1, hq1, hB1, hC1, hD1, hN1⟩ :=
        ih { distance := setD st.distance (row + d.1) (col + d.2) (st.distance row col + 1),
             queue := st.queue ++ [(row + d.1, col + d.2)] }
          (by show setD _ _ _ _ row col ≠ -1; rw [hrc]; exact hset)
          (by
            intro a b
            show -1 ≤ setD st.distance (row + d.1) (col + d.2) (st.distance row col + 1) a b
            unfold setD
            split
            · omega
            · exact hlb a b)
      have hx0new1 : ((row + d.1, col + d.2) : Pos) ∉ new1 := by
        intro hmem
        have h5 : setD st.distance (row + d.1) (col + d.2) (st.distance row col + 1)
            (row + d.1) (col + d.2) = -1 := (hC1 _ hmem).1
        unfold setD at h5
        rw [if_pos ⟨rfl, rfl⟩] at h5
        omega
      refine ⟨(row + d.1, col + d.2) :: new1, ?_, ?_, ?_, ?_, ?_⟩
      · rw [hq1]
        show st.queue ++ [(row + d.1, col + d.2)] ++ new1 = _
        rw [List.append_assoc]
        rfl
      · intro x hx
        have hx1 : x ∉ new1 := fun hm => hx (List.mem_cons_of_mem _ hm)
        have hx0 : x ≠ ((row + d.1, col + d.2) : Pos) :=
          fun he => hx (he ▸ List.mem_cons_self _ _)
        rw [hB1 x hx1]
        show setD st.distance (row + d.1) (col + d.2) (st.distance row col + 1) x.1 x.2
          = st.distance x.1 x.2
        unfold setD
        rw [if_neg (fun hcon => hx0 (Prod.ext_iff.mpr ⟨hcon.1, hcon.2⟩))]
      · intro x hx
        rcases List.mem_cons.mp hx with rfl | hx1
        · refine ⟨hc.2.2.2.2.1, ?_, ⟨d, List.mem_cons_self d ds, rfl⟩,
            hc.1, hc.2.1, hc.2.2.1, hc.2.2.2.1, hc.2.2.2.2.2⟩
          rw [hB1 _ hx0new1]
          show setD st.distance (row + d.1) (col + d.2) (st.distance row col + 1)
            (row + d.1) (col + d.2) = st.distance row col + 1
          unfold setD
          rw [if_pos ⟨rfl, rfl⟩]
        · obtain ⟨hc1, hc2, ⟨d2, hd2, hxd2⟩, hb1, hb2, hb3, hb4, hb5⟩ := hC1 x hx1
          have hc1b : setD st.distance (row + d.1) (col + d.2) (st.distance row col + 1)
              x.1 x.2 = -1 := hc1
          have hxne : ¬(x.1 = row + d.1 ∧ x.2 = col + d.2) := by
            intro hcon
            unfold setD at hc1b
            rw [if_pos hcon] at hc1b
            omega
          have hold : st.distance x.1 x.2 = -1 := by
            unfold setD at hc1b
            rw [if_neg hxne] at hc1b
            exact hc1b
          refine ⟨hold, ?_, ⟨d2, List.mem_cons_of_mem _ hd2, hxd2⟩, hb1, hb2, hb3, hb4, hb5⟩
          rw [hc2]
          show setD st.distance (row + d.1) (col + d.2) (st.distance row col + 1) row col + 1
            = st.distance row col + 1
          rw [hrc]
      · intro d2 hd2 hb1 hb2 hb3 hb4 hset2 hobs2
        rcases List.mem_cons.mp hd2 with rfl | hd2m
        · exact List.mem_cons_self _ _
        · by_cases hsame : ((row + d2.1, col + d2.2) : Pos) = ((row + d.1, col + d.2) : Pos)
          · rw [hsame]
            exact List.mem_cons_self _ _
          · refine List.mem_cons_of_mem _ (hD1 d2 hd2m hb1 hb2 hb3 hb4 ?_ hobs2)
            show setD st.distance (row + d.1) (col + d.2) (st.distance row col + 1)
              (row + d2.1) (col + d2.2) = -1
            unfold setD
            rw [if_neg (fun hcon => hsame (Prod.ext_iff.mpr ⟨hcon.1, hcon.2⟩))]
            exact hset2
      · exact List.nodup_cons.mpr ⟨hx0new1, hN1⟩
    · have hst1 : ParkingSystemStandard.bfsVisit g m n row col st d = st := by
        unfold ParkingSystemStandard.bfsVisit
        rw [if_neg hc]
      rw [hst1]
      obtain ⟨new1, hq1, hB1, hC1, hD1, hN1⟩ := ih st hset hlb
      refine ⟨new1, hq1, hB1, ?_, ?_, hN1⟩
      · intro x hx
        obtain ⟨hc1, hc2, ⟨d2, hd2, hxd2⟩, hrest⟩ := hC1 x hx
        exact ⟨hc1, hc2, ⟨d2, List.mem_cons_of_mem _ hd2, hxd2⟩, hrest⟩
      · intro d2 hd2 hb1 hb2 hb3 hb4 hset2 hobs2
        rcases List.mem_cons.mp hd2 with rfl | hd2m
        · exact absurd ⟨hb1, hb2, hb3, hb4, hset2, hobs2⟩ hc
        · exact hD1 d2 hd2m hb1 hb2 hb3 hb4 hset2 hobs2

theorem bfsInv_init (g : Grid) (s : Pos) (hfree : freeCell g s) :
    BfsInv g s { distance := setD (constMap (-1)) s.1 s.2 0, queue := [s] } := by
  have hval : ∀ x : Pos, setD (constMap (-1)) s.1 s.2 0 x.1 x.2 ≠ -1 → x = s := by
    intro x hx
    by_cases hps : x.1 = s.1 ∧ x.2 = s.2
    · exact Prod.ext_iff.mpr hps
    · exfalso
      apply hx
      show setD (constMap (-1)) s.1 s.2 0 x.1 x.2 = -1
      unfold setD constMap
      rw [if_neg hps]
  have hsval : setD (constMap (-1)) s.1 s.2 0 s.1 s.2 = 0 := setD_self _ _ _ _
  have hsd0 : sdIs g s s 0 := ⟨IsPath.nil hfree, fun m hm => absurd hm (Nat.not_lt_zero m)⟩
  refine ⟨?_, ?_, ?_, ?_, ?_⟩
  · show setD (constMap (-1)) s.1 s.2 0 s.1 s.2 ≠ -1
    rw [hsval]
    omega
  · intro x hx
    have hxs : x = s := hval x hx
    rw [hxs]
    refine ⟨hfree, 0, ?_, hsd0⟩
    show setD (constMap (-1)) s.1 s.2 0 s.1 s.2 = ((0 : Nat) : Int)
    rw [hsval]
    rfl
  · intro q hq
    have hqs : q = s := List.mem_singleton.mp hq
    rw [hqs]
    show setD (constMap (-1)) s.1 s.2 0 s.1 s.2 ≠ -1
    rw [hsval]
    omega
  · intro x hxset hxnot
    exact absurd (List.mem_singleton.mpr (hval x hxset)) hxnot
  · right
    refine ⟨0, [s], [], by simp, by simp, ?_, by simp, ?_⟩
    · intro a ha
      have has : a = s := List.mem_singleton.mp ha
      rw [has]
      show setD (constMap (-1)) s.1 s.2 0 s.1 s.2 = ((0 : Nat) : Int)
      rw [hsval]
      rfl
    · intro x k hk hk0
      have hk00 : k = 0 := Nat.le_zero.mp hk0
      rw [hk00] at hk
      have hxs : x = s := isPath_zero hk.1
      rw [hxs]
      show setD (constMap (-1)) s.1 s.2 0 s.1 s.2 ≠ -1
      rw [hsval]
      omega

theorem bfsInv_step (g : Grid) (s : Pos) (D : DistMap) (p : Pos) (rest : List Pos)
    (hinv : BfsInv g s { distance := D, queue := p :: rest }) :
    BfsInv g s (ParkingSystemStandard.bfsProcess g (gridRows g) (gridCols g) p.1 p.2
      { distance := D, queue := rest }) := by
  have hpset : D p.1 p.2 ≠ -1 := hinv.queue_set p (List.mem_cons_self p rest)
  have hlb : ∀ a b : Int, -1 ≤ D a b := by
    intro a b
    by_cases hset : D a b = -1
    · omega
    · obtain ⟨-, k, hk, -⟩ := hinv.exact (a, b) hset
      have hk2 : D a b = (k : Int) := hk
      omega
  obtain ⟨hfreep, np, hvp, hsdp⟩ := hinv.exact p hpset
  have hvp2 : D p.1 p.2 = (np : Int) := hvp
  rcases hinv.shape with hemp | ⟨ℓ, A, B, hQ, hAne, hAlev, hBlev, hcomp⟩
  · exact absurd hemp (List.cons_ne_nil p rest)
  obtain ⟨A2, rfl⟩ : ∃ A2, A = p :: A2 := by
    cases A with
    | nil => exact absurd rfl hAne
    | cons a A2 =>
      rw [List.cons_append] at hQ
      injection hQ with h1 h2
      exact ⟨A2, by rw [h1]⟩
  rw [List.cons_append] at hQ
  injection hQ with hdummy hrest
  have hplev : D p.1 p.2 = (ℓ : Int) := hAlev p (List.mem_cons_self _ _)
  have hnpl : np = ℓ := by
    rw [hvp2] at hplev
    exact_mod_cast hplev
  have hsdpl : sdIs g s p ℓ := hnpl ▸ hsdp
  have hplev2 : D p.1 p.2 = (ℓ : Int) := hAlev p (List.mem_cons_self _ _)
  obtain ⟨new, hq0, hB0, hC0, hD0, hN⟩ := std_process_spec g (gridRows g) (gridCols g) p.1 p.2
    directions { distance := D, queue := rest } hpset hlb
  unfold ParkingSystemStandard.bfsProcess
  have hq2 : (directions.foldl
      (ParkingSystemStandard.bfsVisit g (gridRows g) (gridCols g) p.1 p.2)
      { distance := D, queue := rest }).queue = rest ++ new := hq0
  have hB2 : ∀ x : Pos, x ∉ new → (directions.foldl
      (ParkingSystemStandard.bfsVisit g (gridRows g) (gridCols g) p.1 p.2)
      { distance := D, queue := rest }).distance x.1 x.2 = D x.1 x.2 := hB0
  have hC2 : ∀ x ∈ new, D x.1 x.2 = -1 ∧
      (directions.foldl (ParkingSystemStandard.bfsVisit g (gridRows g) (gridCols g) p.1 p.2)
        { distance := D, queue := rest }).distance x.1 x.2 = D p.1 p.2 + 1 ∧
      (∃ d ∈ directions, x = (p.1 + d.1, p.2 + d.2)) ∧
      0 ≤ x.1 ∧ x.1 < gridRows g ∧ 0 ≤ x.2 ∧ x.2 < gridCols g ∧ gridAt g x.1 x.2 ≠ 2 := hC0
  have hD2 : ∀ d ∈ directions, 0 ≤ p.1 + d.1 → p.1 + d.1 < gridRows g →
      0 ≤ p.2 + d.2 → p.2 + d.2 < gridCols g → D (p.1 + d.1) (p.2 + d.2) = -1 →
      gridAt g (p.1 + d.1) (p.2 + d.2) ≠ 2 → ((p.1 + d.1, p.2 + d.2) : Pos) ∈ new := hD0
  have hcomp2 : ∀ x : Pos, ∀ k : Nat, sdIs g s x k → k ≤ ℓ → D x.1 x.2 ≠ -1 := hcomp
  have hBlev2 : ∀ b ∈ B, D b.1 b.2 = (ℓ : Int) + 1 := hBlev
  have hAlev2 : ∀ a ∈ p :: A2, D a.1 a.2 = (ℓ : Int) := hAlev
  have hnew_unset : ∀ x ∈ new, D x.1 x.2 = -1 := fun x hx => (hC2 x hx).1
  have hsets_keep : ∀ x : Pos, D x.1 x.2 ≠ -1 →
      (directions.foldl (ParkingSystemStandard.bfsVisit g (gridRows g) (gridCols g) p.1 p.2)
        { distance := D, queue := rest }).distance x.1 x.2 = D x.1 x.2 := by
    intro x hx
    exact hB2 x (fun hm => hx (hnew_unset x hm))
  have hnew_exact : ∀ x ∈ new, freeCell g x ∧ sdIs g s x (ℓ + 1) ∧
      (directions.foldl (ParkingSystemStandard.bfsVisit g (gridRows g) (gridCols g) p.1 p.2)
        { distance := D, queue := rest }).distance x.1 x.2 = ((ℓ + 1 : Nat) : Int) := by
    intro x hx
    obtain ⟨hxun, hxval, ⟨dd, hdd, hxd⟩, hb1, hb2, hb3, hb4, hb5⟩ := hC2 x hx
    have hfree : freeCell g x := ⟨⟨hb1, hb2, hb3, hb4⟩, hb5⟩
    have hadj : adjStep p x := ⟨dd, hdd, hxd⟩
    have hpath : IsPath g s x (ℓ + 1) := IsPath.cons hsdpl.1 hadj hfree
    have hmin : ∀ m : Nat, m < ℓ + 1 → ¬IsPath g s x m := by
      intro m hm hpm
      obtain ⟨k, hk, hkle⟩ := exists_sdIs ⟨m, hpm⟩
      have hkred : k ≤ ℓ := le_trans (hkle m hpm) (Nat.lt_succ_iff.mp hm)
      exact hcomp2 x k hk hkred hxun
    refine ⟨hfree, ⟨hpath, hmin⟩, ?_⟩
    rw [hxval, hplev]
    push_cast
    omega
  refine ⟨?_, ?_, ?_, ?_, ?_⟩
  · have hsnot : s ∉ new := fun hm => hinv.start_set (hnew_unset s hm)
    rw [hB2 s hsnot]
    exact hinv.start_set
  · intro x hx
    by_cases hxn : x ∈ new
    · obtain ⟨hfree, hsd, hval⟩ := hnew_exact x hxn
      exact ⟨hfree, ℓ + 1, hval, hsd⟩
    · rw [hB2 x hxn] at hx
      obtain ⟨hfree, k, hval, hsd⟩ := hinv.exact x hx
      have hval2 : D x.1 x.2 = (k : Int) := hval
      refine ⟨hfree, k, ?_, hsd⟩
      rw [hB2 x hxn]
      exact hval2
  · intro q hqm
    have hqm2 : q ∈ rest ++ new := by
      rw [← hq2]
      exact hqm
    rcases List.mem_append.mp hqm2 with hq1 | hq2b
    · have hold : D q.1 q.2 ≠ -1 :=
        hinv.queue_set q (List.mem_cons_of_mem _ hq1)
      rw [hsets_keep q hold]
      exact hold
    · obtain ⟨-, -, hval⟩ := hnew_exact q hq2b
      rw [hval]
      have : (0 : Int) ≤ ((ℓ + 1 : Nat) : Int) := Int.natCast_nonneg _
      omega
  · intro x hxset hxnot q hadj hfreeq
    have hxnot2 : x ∉ rest ++ new := by
      rw [← hq2]
      exact hxnot
    have hxrest : x ∉ rest := fun hm => hxnot2 (List.mem_append.mpr (Or.inl hm))
    have hxnew : x ∉ new := fun hm => hxnot2 (List.mem_append.mpr (Or.inr hm))
    have hxold : D x.1 x.2 ≠ -1 := by
      rw [hB2 x hxnew] at hxset
      exact hxset
    by_cases hqD : D q.1 q.2 = -1
    · by_cases hxp : x = p
      · obtain ⟨dd, hdd, hqd⟩ := hadj
        rw [hxp] at hqd
        have hqc : q.1 = p.1 + dd.1 ∧ q.2 = p.2 + dd.2 := by
          rw [hqd]
          exact ⟨rfl, rfl⟩
        have hqmem : ((p.1 + dd.1, p.2 + dd.2) : Pos) ∈ new := by
          apply hD2 dd hdd
          · rw [← hqc.1]; exact hfreeq.1.1
          · rw [← hqc.1]; exact hfreeq.1.2.1
          · rw [← hqc.2]; exact hfreeq.1.2.2.1
          · rw [← hqc.2]; exact hfreeq.1.2.2.2
          · rw [← hqc.1, ← hqc.2]; exact hqD
          · rw [← hqc.1, ← hqc.2]; exact hfreeq.2
        obtain ⟨-, -, hval⟩ := hnew_exact _ hqmem
        rw [hqd, hval]
        have : (0 : Int) ≤ ((ℓ + 1 : Nat) : Int) := Int.natCast_nonneg _
        omega
      · have hxq : x ∉ p :: rest := by
          intro hm
          rcases List.mem_cons.mp hm with he | hm2
          · exact hxp he
          · exact hxrest hm2
        have := hinv.frontier x hxold hxq q hadj hfreeq
        have h2 : D q.1 q.2 ≠ -1 := this
        exact absurd hqD h2
    · have hqnew : q ∉ new := fun hm => hqD (hnew_unset q hm)
      rw [hB2 q hqnew]
      exact hqD
  · cases A2 with
    | cons a A2t =>
      right
      refine ⟨ℓ, a :: A2t, B ++ new, ?_, List.cons_ne_nil a A2t, ?_, ?_, ?_⟩
      · rw [hq2, hrest, List.append_assoc]
      · intro x hx
        have hxA : x ∈ p :: a :: A2t := List.mem_cons_of_mem _ hx
        have hold : D x.1 x.2 = (ℓ : Int) := hAlev2 x hxA
        rw [hsets_keep x (by rw [hold]; intro hcon; omega)]
        exact hold
      · intro x hx
        rcases List.mem_append.mp hx with hx1 | hx2
        · have hold : D x.1 x.2 = (ℓ : Int) + 1 := hBlev2 x hx1
          rw [hsets_keep x (by rw [hold]; intro hcon; omega)]
          exact hold
        · obtain ⟨-, -, hval⟩ := hnew_exact x hx2
          rw [hval]
          push_cast
          omega
      · intro x k hk hkle
        have hold : D x.1 x.2 ≠ -1 := hcomp2 x k hk hkle
        rw [hsets_keep x hold]
        exact hold
    | nil =>
      have hrB : rest = B := hrest
      by_cases hBN : B ++ new = []
      · left
        rw [hq2, hrB, hBN]
      · right
        refine ⟨ℓ + 1, B ++ new, [], ?_, hBN, ?_, by simp, ?_⟩
        · rw [hq2, hrB, List.append_nil]
        · intro x hx
          rcases List.mem_append.mp hx with hx1 | hx2
          · have hold : D x.1 x.2 = (ℓ : Int) + 1 := hBlev2 x hx1
            rw [hsets_keep x (by rw [hold]; intro hcon; omega)]
            rw [hold]
            push_cast
            omega
          · obtain ⟨-, -, hval⟩ := hnew_exact x hx2
            exact hval
        · intro x k hk hkle
          by_cases hkl : k ≤ ℓ
          · have hold : D x.1 x.2 ≠ -1 := hcomp2 x k hk hkl
            rw [hsets_keep x hold]
            exact hold
          · have hkeq : k = ℓ + 1 := by omega
            rw [hkeq] at hk
            obtain ⟨y, hy, hyx, hfreex⟩ := isPath_succ hk.1
            obtain ⟨ky, hky, hkyle⟩ := exists_sdIs ⟨ℓ, hy⟩
            have hkyl : ky ≤ ℓ := hkyle ℓ hy
            have hyset : D y.1 y.2 ≠ -1 := hcomp2 y ky hky hkyl
            by_cases hxset : D x.1 x.2 = -1
            · by_cases hyq : y ∈ p :: rest
              · rcases List.mem_cons.mp hyq with hyp | hym
                · obtain ⟨dd, hdd, hxd⟩ := hyx
                  rw [hyp] at hxd
                  have hxc : x.1 = p.1 + dd.1 ∧ x.2 = p.2 + dd.2 := by
                    rw [hxd]
                    exact ⟨rfl, rfl⟩
                  have hxmem : ((p.1 + dd.1, p.2 + dd.2) : Pos) ∈ new := by
                    apply hD2 dd hdd
                    · rw [← hxc.1]; exact hfreex.1.1
                    · rw [← hxc.1]; exact hfreex.1.2.1
                    · rw [← hxc.2]; exact hfreex.1.2.2.1
                    · rw [← hxc.2]; exact hfreex.1.2.2.2
                    · rw [← hxc.1, ← hxc.2]; exact hxset
                    · rw [← hxc.1, ← hxc.2]; exact hfreex.2
                  obtain ⟨-, -, hval⟩ := hnew_exact _ hxmem
                  rw [hxd, hval]
                  have : (0 : Int) ≤ ((ℓ + 1 : Nat) : Int) := Int.natCast_nonneg _
                  omega
                · exfalso
                  rw [hrB] at hym
                  have hylev : D y.1 y.2 = (ℓ : Int) + 1 := hBlev2 y hym
                  obtain ⟨-, ny, hnyv, hnysd⟩ := hinv.exact y hyset
                  have hnyv2 : D y.1 y.2 = (ny : Int) := hnyv
                  have hny : (ny : Int) = (ℓ : Int) + 1 := by
                    rw [← hnyv2]
                    exact hylev
                  have hny2 : ny = ℓ + 1 := by exact_mod_cast hny
                  rw [hny2] at hnysd
                  exact hnysd.2 ℓ (Nat.lt_succ_self ℓ) hy
              · have := hinv.frontier y hyset hyq x hyx hfreex
                have h2 : D x.1 x.2 ≠ -1 := this
                exact absurd hxset h2
            · rw [hsets_keep x hxset]
              exact hxset

theorem unsetCount_after (g : Grid) (D D2 : DistMap) (new : List Pos)
    (hsub : ∀ x ∈ new, x ∈ cellsOf g)
    (hnd : new.Nodup)
    (hunset : ∀ x ∈ new, D x.1 x.2 = -1)
    (hset : ∀ x ∈ new, D2 x.1 x.2 ≠ -1)
    (hkeep : ∀ x : Pos, x ∉ new → D2 x.1 x.2 = D x.1 x.2) :
    unsetCount g D2 + new.length = unsetCount g D := by
  unfold unsetCount
  have hfe : (cellsOf g).toFinset.filter (fun x => D2 x.1 x.2 = -1) =
      ((cellsOf g).toFinset.filter (fun x => D x.1 x.2 = -1)) \ new.toFinset := by
    ext x
    simp only [Finset.mem_filter, Finset.mem_sdiff, List.mem_toFinset]
    constructor
    · intro hx
      have hxnew : x ∉ new := fun hm => hset x hm hx.2
      exact ⟨⟨hx.1, by rw [← hkeep x hxnew]; exact hx.2⟩, hxnew⟩
    · intro hx
      exact ⟨hx.1.1, by rw [hkeep x hx.2]; exact hx.1.2⟩
  rw [hfe]
  have hsub2 : new.toFinset ⊆ (cellsOf g).toFinset.filter (fun x => D x.1 x.2 = -1) := by
    intro x hx
    rw [List.mem_toFinset] at hx
    rw [Finset.mem_filter, List.mem_toFinset]
    exact ⟨hsub x hx, hunset x hx⟩
  rw [Finset.card_sdiff hsub2]
  have hcard : new.toFinset.card = new.length := List.toFinset_card_of_nodup hnd
  have hle : new.toFinset.card ≤
      ((cellsOf g).toFinset.filter (fun x => D x.1 x.2 = -1)).card :=
    Finset.card_le_card hsub2
  omega

theorem bfsInv_empty (g : Grid) (s : Pos) (st : ParkingSystemStandard.BfsSt)
    (h : BfsInv g s st) (hq : st.queue = []) :
    BfsInv g s { distance := st.distance, queue := [] } := by
  refine ⟨h.start_set, h.exact, ?_, ?_, Or.inl rfl⟩
  · intro q hq2
    exact absurd hq2 (List.not_mem_nil q)
  · intro x hxset hxnot q hadj hfree
    refine h.frontier x hxset ?_ q hadj hfree
    rw [hq]
    exact List.not_mem_nil x

theorem bfsLoop_drain (g : Grid) (s : Pos) :
    ∀ (fuel : Nat) (D0 : DistMap) (Q0 : List Pos),
      BfsInv g s { distance := D0, queue := Q0 } →
      Q0.length + unsetCount g D0 ≤ fuel →
      BfsInv g s
        { distance := ParkingSystemStandard.bfsLoop g (gridRows g) (gridCols g) fuel
            { distance := D0, queue := Q0 },
          queue := [] } := by
  intro fuel
  induction fuel with
  | zero =>
    intro D0 Q0 hinv hfuel
    have hq : Q0 = [] := by
      cases Q0 with
      | nil => rfl
      | cons p rest => simp at hfuel
    exact bfsInv_empty g s _ hinv hq
  | succ fuel ih =>
    intro D0 Q0 hinv hfuel
    cases Q0 with
    | nil => exact bfsInv_empty g s _ hinv rfl
    | cons p rest =>
      have hstep : BfsInv g s (ParkingSystemStandard.bfsProcess g (gridRows g) (gridCols g)
          p.1 p.2 { distance := D0, queue := rest }) :=
        bfsInv_step g s D0 p rest hinv
      have hpset : D0 p.1 p.2 ≠ -1 := hinv.queue_set p (List.mem_cons_self p rest)
      have hlb : ∀ a b : Int, -1 ≤ D0 a b := by
        intro a b
        by_cases hset : D0 a b = -1
        · omega
        · obtain ⟨-, k, hk, -⟩ := hinv.exact (a, b) hset
          have hk2 : D0 a b = (k : Int) := hk
          omega
      obtain ⟨new, hq0, hB0, hC0, hD0x, hN⟩ := std_process_spec g (gridRows g) (gridCols g)
        p.1 p.2 directions { distance := D0, queue := rest } hpset hlb
      have hq2 : (directions.foldl
          (ParkingSystemStandard.bfsVisit g (gridRows g) (gridCols g) p.1 p.2)
          { distance := D0, queue := rest }).queue = rest ++ new := hq0
      have hB2 : ∀ x : Pos, x ∉ new → (directions.foldl
          (ParkingSystemStandard.bfsVisit g (gridRows g) (gridCols g) p.1 p.2)
          { distance := D0, queue := rest }).distance x.1 x.2 = D0 x.1 x.2 := hB0
      have hC2 : ∀ x ∈ new, D0 x.1 x.2 = -1 ∧
          (directions.foldl (ParkingSystemStandard.bfsVisit g (gridRows g) (gridCols g) p.1 p.2)
            { distance := D0, queue := rest }).distance x.1 x.2 = D0 p.1 p.2 + 1 ∧
          (∃ d ∈ directions, x = (p.1 + d.1, p.2 + d.2)) ∧
          0 ≤ x.1 ∧ x.1 < gridRows g ∧ 0 ≤ x.2 ∧ x.2 < gridCols g ∧
          gridAt g x.1 x.2 ≠ 2 := hC0
      have hcount : unsetCount g (directions.foldl
          (ParkingSystemStandard.bfsVisit g (gridRows g) (gridCols g) p.1 p.2)
          { distance := D0, queue := rest }).distance + new.length = unsetCount g D0 := by
        refine unsetCount_after g D0 _ new ?_ hN ?_ ?_ hB2
        · intro x hx
          obtain ⟨-, -, -, hb1, hb2, hb3, hb4, -⟩ := hC2 x hx
          exact mem_cellsOf.mpr ⟨hb1, hb2, hb3, hb4⟩
        · intro x hx
          exact (hC2 x hx).1
        · intro x hx
          obtain ⟨-, hval, -⟩ := hC2 x hx
          rw [hval]
          have := hlb p.1 p.2
          omega
      have hloop : ParkingSystemStandard.bfsLoop g (gridRows g) (gridCols g) (Nat.succ fuel)
          { distance := D0, queue := p :: rest } =
          ParkingSystemStandard.bfsLoop g (gridRows g) (gridCols g) fuel
            (ParkingSystemStandard.bfsProcess g (gridRows g) (gridCols g) p.1 p.2
              { distance := D0, queue := rest }) := rfl
      rw [hloop]
      have hst : ParkingSystemStandard.bfsProcess g (gridRows g) (gridCols g) p.1 p.2
          { distance := D0, queue := rest } =
          { distance := (ParkingSystemStandard.bfsProcess g (gridRows g) (gridCols g) p.1 p.2
              { distance := D0, queue := rest }).distance,
            queue := rest ++ new } := by
        rw [← hq2]
        rfl
      rw [hst] at hstep ⊢
      have hcount2 : unsetCount g (ParkingSystemStandard.bfsProcess g (gridRows g) (gridCols g)
          p.1 p.2 { distance := D0, queue := rest }).distance + new.length =
          unsetCount g D0 := hcount
      refine ih _ (rest ++ new) hstep ?_
      rw [List.length_append]
      have hQlen : (p :: rest).length = rest.length + 1 := List.length_cons p rest
      rw [hQlen] at hfuel
      have hproc : (ParkingSystemStandard.bfsProcess g (gridRows g) (gridCols g) p.1 p.2
          { distance := D0, queue := rest }) =
          { distance := (ParkingSystemStandard.bfsProcess g (gridRows g) (gridCols g) p.1 p.2
              { distance := D0, queue := rest }).distance, queue := rest ++ new } := hst
      omega

theorem cellsOf_length (g : Grid) :
    (cellsOf g).length = g.length * (g.headD []).length := by
  unfold cellsOf
  rw [List.length_flatMap]
  have hmap : List.map
      (List.length ∘ fun i => List.map (fun j => ((Int.ofNat i, Int.ofNat j) : Pos))
        (List.range (g.headD []).length)) (List.range g.length) =
      List.map (fun _ => (g.headD []).length) (List.range g.length) := by
    apply List.map_congr_left
    intro i _
    show (List.map (fun j => ((Int.ofNat i, Int.ofNat j) : Pos))
      (List.range (g.headD []).length)).length = _
    rw [List.length_map, List.length_range]
  rw [hmap, List.map_const', List.sum_replicate, List.length_range, smul_eq_mul]

theorem std_bfs_final (g : Grid) (s : Pos) (hfree : freeCell g s) :
    BfsInv g s { distance := ParkingSystemStandard.bfs g s.1 s.2, queue := [] } := by
  unfold ParkingSystemStandard.bfs
  have hinit := bfsInv_init g s hfree
  refine bfsLoop_drain g s _ _ _ hinit ?_
  have hs_cell : s ∈ (cellsOf g).toFinset := by
    rw [List.mem_toFinset]
    exact mem_cellsOf.mpr hfree.1
  have hsub : (cellsOf g).toFinset.filter
      (fun x => setD (constMap (-1)) s.1 s.2 0 x.1 x.2 = -1) ⊆
      (cellsOf g).toFinset.erase s := by
    intro x hx
    rw [Finset.mem_filter] at hx
    rw [Finset.mem_erase]
    refine ⟨?_, hx.1⟩
    intro hxs
    have hx2 := hx.2
    rw [hxs] at hx2
    rw [setD_self] at hx2
    omega
  have h1 : unsetCount g (setD (constMap (-1)) s.1 s.2 0) ≤
      (cellsOf g).toFinset.card - 1 := by
    unfold unsetCount
    calc ((cellsOf g).toFinset.filter
        (fun x => setD (constMap (-1)) s.1 s.2 0 x.1 x.2 = -1)).card
        ≤ ((cellsOf g).toFinset.erase s).card := Finset.card_le_card hsub
      _ = (cellsOf g).toFinset.card - 1 := Finset.card_erase_of_mem hs_cell
  have h2 : (cellsOf g).toFinset.card ≤ (cellsOf g).length := List.toFinset_card_le _
  have h3 := cellsOf_length g
  have h4 : 1 ≤ (cellsOf g).toFinset.card := Finset.card_pos.mpr ⟨s, hs_cell⟩
  have h5 : ([s] : List Pos).length = 1 := rfl
  rw [h5]
  omega

theorem std_bfs_correct (g : Grid) (s : Pos) (hfree : freeCell g s) :
    (∀ p : Pos, ∀ n : Nat,
      (ParkingSystemStandard.bfs g s.1 s.2 p.1 p.2 = (n : Int) ↔ sdIs g s p n)) ∧
    (∀ p : Pos,
      (ParkingSystemStandard.bfs g s.1 s.2 p.1 p.2 = -1 ↔ ¬∃ n, IsPath g s p n)) := by
  have hinv := std_bfs_final g s hfree
  have hcompl : ∀ (p : Pos) (n : Nat), IsPath g s p n →
      ParkingSystemStandard.bfs g s.1 s.2 p.1 p.2 ≠ -1 := by
    intro p n hp
    induction hp with
    | nil hf => exact hinv.start_set
    | cons hsub hadj hf ih => exact hinv.frontier _ ih (List.not_mem_nil _) _ hadj hf
  constructor
  · intro p n
    constructor
    · intro hval
      have hset : ParkingSystemStandard.bfs g s.1 s.2 p.1 p.2 ≠ -1 := by
        rw [hval]
        have : (0 : Int) ≤ (n : Int) := Int.natCast_nonneg n
        omega
      obtain ⟨-, k, hvk, hsdk⟩ := hinv.exact p hset
      have hvk2 : ParkingSystemStandard.bfs g s.1 s.2 p.1 p.2 = (k : Int) := hvk
      rw [hval] at hvk2
      have hkn : n = k := by exact_mod_cast hvk2
      rw [hkn]
      exact hsdk
    · intro hsd
      have hset := hcompl p n hsd.1
      obtain ⟨-, k, hvk, hsdk⟩ := hinv.exact p hset
      have hvk2 : ParkingSystemStandard.bfs g s.1 s.2 p.1 p.2 = (k : Int) := hvk
      rw [hvk2, sdIs_unique hsdk hsd]
  · intro p
    constructor
    · intro hval hex
      obtain ⟨n, hn⟩ := hex
      exact hcompl p n hn hval
    · intro hnp
      by_cases hset : ParkingSystemStandard.bfs g s.1 s.2 p.1 p.2 = -1
      · exact hset
      · obtain ⟨-, k, -, hsdk⟩ := hinv.exact p hset
        exact absurd ⟨k, hsdk.1⟩ hnp

theorem opt_visit_sim (g : Grid) (m n row col : Int)
    (st : ParkingSystemOptimized.BfsSt) (st2 : ParkingSystemStandard.BfsSt)
    (hd : st.distance = st2.distance) (hq : st.queue = st2.queue) (d : Pos) :
    (ParkingSystemOptimized.bfsVisit g m n row col st d).distance =
      (ParkingSystemStandard.bfsVisit g m n row col st2 d).distance ∧
    (ParkingSystemOptimized.bfsVisit g m n row col st d).queue =
      (ParkingSystemStandard.bfsVisit g m n row col st2 d).queue := by
  unfold ParkingSystemOptimized.bfsVisit ParkingSystemStandard.bfsVisit
  by_cases hc : 0 ≤ row + d.1 ∧ row + d.1 < m ∧ 0 ≤ col + d.2 ∧ col + d.2 < n ∧
      st.distance (row + d.1) (col + d.2) = -1 ∧ gridAt g (row + d.1) (col + d.2) ≠ 2
  · have hc2 : 0 ≤ row + d.1 ∧ row + d.1 < m ∧ 0 ≤ col + d.2 ∧ col + d.2 < n ∧
        st2.distance (row + d.1) (col + d.2) = -1 ∧ gridAt g (row + d.1) (col + d.2) ≠ 2 := by
      rw [← hd]
      exact hc
    rw [if_pos hc, if_pos hc2]
    constructor
    · show setD st.distance (row + d.1) (col + d.2) (st.distance row col + 1) =
        setD st2.distance (row + d.1) (col + d.2) (st2.distance row col + 1)
      rw [hd]
    · show st.queue ++ [((row + d.1, col + d.2) : Pos)] =
        st2.queue ++ [((row + d.1, col + d.2) : Pos)]
      rw [hq]
  · have hc2 : ¬(0 ≤ row + d.1 ∧ row + d.1 < m ∧ 0 ≤ col + d.2 ∧ col + d.2 < n ∧
        st2.distance (row + d.1) (col + d.2) = -1 ∧ gridAt g (row + d.1) (col + d.2) ≠ 2) := by
      rw [← hd]
      exact hc
    rw [if_neg hc, if_neg hc2]
    exact ⟨hd, hq⟩

theorem opt_fold_sim (g : Grid) (m n row col : Int) :
    ∀ (ds : List Pos) (st : ParkingSystemOptimized.BfsSt)
      (st2 : ParkingSystemStandard.BfsSt),
      st.distance = st2.distance → st.queue = st2.queue →
      (ds.foldl (ParkingSystemOptimized.bfsVisit g m n row col) st).distance =
        (ds.foldl (ParkingSystemStandard.bfsVisit g m n row col) st2).distance ∧
      (ds.foldl (ParkingSystemOptimized.bfsVisit g m n row col) st).queue =
        (ds.foldl (ParkingSystemStandard.bfsVisit g m n row col) st2).queue := by
  intro ds
  induction ds with
  | nil => intro st st2 hd hq; exact ⟨hd, hq⟩
  | cons d rest ih =>
    intro st st2 hd hq
    rw [List.foldl_cons, List.foldl_cons]
    obtain ⟨hd2, hq2⟩ := opt_visit_sim g m n row col st st2 hd hq d
    exact ih _ _ hd2 hq2

theorem opt_loop_sim (g : Grid) (m n : Int) :
    ∀ (fuel : Nat) (st : ParkingSystemOptimized.BfsSt)
      (st2 : ParkingSystemStandard.BfsSt),
      st.distance = st2.distance → st.queue = st2.queue →
      (ParkingSystemOptimized.bfsLoop g m n fuel st).distance =
        ParkingSystemStandard.bfsLoop g m n fuel st2 := by
  intro fuel
  induction fuel with
  | zero => intro st st2 hd hq; exact hd
  | succ fuel ih =>
    intro st st2 hd hq
    obtain ⟨D1, T1, R1, Q1⟩ := st
    obtain ⟨D2, Q2⟩ := st2
    have hd2 : D1 = D2 := hd
    have hq2 : Q1 = Q2 := hq
    rw [hd2, hq2]
    cases Q2 with
    | nil => exact rfl
    | cons p rest =>
      show (ParkingSystemOptimized.bfsLoop g m n fuel
          (ParkingSystemOptimized.bfsProcess g m n p.1 p.2
            { distance := D2, totalDist := T1, reachCount := R1, queue := rest })).distance =
        ParkingSystemStandard.bfsLoop g m n fuel
          (ParkingSystemStandard.bfsProcess g m n p.1 p.2
            { distance := D2, queue := rest })
      obtain ⟨hpd, hpq⟩ := opt_fold_sim g m n p.1 p.2 directions
        { distance := D2, totalDist := T1, reachCount := R1, queue := rest }
        { distance := D2, queue := rest } rfl rfl
      exact ih _ _ hpd hpq

theorem opt_bfs_dist_sim (g : Grid) (i j : Int) (t r : DistMap) :
    (ParkingSystemOptimized.bfsFinal g i j t r).distance =
      ParkingSystemStandard.bfs g i j := by
  unfold ParkingSystemOptimized.bfsFinal ParkingSystemStandard.bfs
  exact opt_loop_sim g (gridRows g) (gridCols g) (g.length * (g.headD []).length)
    { distance := setD (constMap (-1)) i j 0, totalDist := t, reachCount := r,
      queue := [(i, j)] }
    { distance := setD (constMap (-1)) i j 0, queue := [(i, j)] } rfl rfl

/-- C7: for every valid grid and every source cell inside it, the
single-source BFS assigns to each cell reachable from the source through
4-connected non-obstacle cells its exact shortest hop distance (the
source itself at distance 0 since `sdIs g s s 0`), leaves every
unreachable cell at the `-1` sentinel, never assigns a distance to an
Obstacle cell, and the optimized engine's internal distance map coincides
with the standard one. -/
theorem c7_bfs_computes_shortest_distances (g : Grid) (s : Pos) (_hg : Rect g)
    (hb : inBounds g s) (hsrc : gridAt g s.1 s.2 = 1) :
    (∀ p : Pos, ∀ n : Nat,
      (ParkingSystemStandard.bfs g s.1 s.2 p.1 p.2 = (n : Int) ↔ sdIs g s p n)) ∧
    (∀ p : Pos,
      (ParkingSystemStandard.bfs g s.1 s.2 p.1 p.2 = -1 ↔ ¬∃ n, IsPath g s p n)) ∧
    (∀ p : Pos, gridAt g p.1 p.2 = 2 → ParkingSystemStandard.bfs g s.1 s.2 p.1 p.2 = -1) ∧
    (∀ t r : DistMap,
      (ParkingSystemOptimized.bfsFinal g s.1 s.2 t r).distance =
        ParkingSystemStandard.bfs g s.1 s.2) := by
  have hfree : freeCell g s := by
    refine ⟨hb, ?_⟩
    rw [hsrc]
    omega
  obtain ⟨h1, h2⟩ := std_bfs_correct g s hfree
  refine ⟨h1, h2, ?_, ?_⟩
  · intro p hobs
    rw [h2 p]
    intro hex
    obtain ⟨n, hn⟩ := hex
    exact (isPath_free_end hn).2 hobs
  · intro t r
    exact opt_bfs_dist_sim g s.1 s.2 t r

/-- Witness for C7 on the demonstration grid with source `(0, 0)`: the
BFS entry `2` at cell `(1, 1)` certifies the exact shortest distance. -/
theorem c7_bfs_computes_shortest_distances_witness :
    sdIs demoGrid ((0 : Int), (0 : Int)) ((1 : Int), (1 : Int)) 2 :=
  ((c7_bfs_computes_shortest_distances demoGrid (0, 0) (by decide) (by decide)
    (by decide)).1 (1, 1) 2).mp (by decide)
